import Mathlib

/-!
Verification development for the `reposync` repository synchronization service.

The definitions below are a shallow embedding of the Rust sources:
  * `src/packages.rs`  — data model (Hash, Signature, Package, IndexFile, Target,
    Collection, Repository) and hash verification;
  * `src/sync.rs`      — `repo_diff`, `deduplicate_list`, the ordered apply phase of
    `sync_repo_internal`, `queue_sync`, `sync_completed`, `load_current`;
  * `src/fetcher.rs`   — `RetryFetcher::fetch`;
  * `src/locks.rs`     — `Lock::is_repo_syncing` and the sync-flag map operations;
  * `src/debian.rs`, `src/redhat.rs`, `src/utils.rs` — index-list construction of
    `fetch_repository_internal` and `add_optional_index`.

Machine integers (`u64`/`usize`) are modelled as `Nat` (no arithmetic in the embedded
code can overflow-wrap: sizes are compared for equality only, and times are compared
and added). Byte streams are modelled as `List Nat` (one `Nat` per byte), file-system
and network effects as explicit environment records of pure functions, and `BTreeMap`
as an association list kept sorted by key (`btInsert`), matching the Rust map's
insert-overwrite semantics and its ascending-key iteration order.
-/

namespace RepoSync

/-! ## Data model (`src/packages.rs`) -/

/-- Rust `enum Hash { Sha1 { hex }, Sha256 { hex }, None }` with the derived (exact)
structural equality. -/
inductive Hash where
  | sha1 (hex : String)
  | sha256 (hex : String)
  | none
deriving DecidableEq, Repr

/-- Rust `enum Signature { PGPEmbedded, PGPExternal { signature }, None }`. -/
inductive Signature where
  | pgpEmbedded
  | pgpExternal (signature : String)
  | none
deriving DecidableEq, Repr

/-- Rust `struct Package` from `src/packages.rs`. -/
structure Package where
  name : String
  version : String
  architecture : String
  path : String
  hash : Hash
  size : Nat
deriving DecidableEq, Repr

/-- Rust `struct Target` from `src/packages.rs`. -/
structure Target where
  release_name : String
  architectures : List String
deriving DecidableEq, Repr

/-- Rust `struct IndexFile` from `src/packages.rs`. -/
structure IndexFile where
  file_path : String
  path : String
  size : Nat
  hash : Hash
  signature : Signature
deriving DecidableEq, Repr

/-- Rust `IndexFile::same_content`: path, size and hash all match (file_path and
signature are ignored). -/
def IndexFile.same_content (a other : IndexFile) : Bool :=
  a.path == other.path && a.size == other.size && a.hash == other.hash

/-- Rust `struct Collection` from `src/packages.rs`. -/
structure Collection where
  target : Target
  indexes : List IndexFile
  packages : List Package
deriving DecidableEq, Repr

/-- Rust `Collection::empty`. -/
def Collection.empty (target : Target) : Collection :=
  { target := target, indexes := [], packages := [] }

/-- Rust `struct Repository` from `src/packages.rs`. -/
structure Repository where
  name : String
  collections : List Collection
deriving DecidableEq, Repr

/-! ## Integrity layer (`Hash::matches`, `Hash::verify`)

`Hash::verify` is generic over the digest (`D: Update + FixedOutput`); feeding the
stream in 4 KiB chunks to an incremental hasher computes the digest of the whole
stream, so the digest is modelled as a function on the full byte list, passed in as
a parameter (`sha1f` / `sha256f` at the two instantiation sites). -/

/-- Lowercase hex digit for a value `< 16`, as produced by `HEXLOWER_PERMISSIVE.encode`. -/
def hexDigitLower (n : Nat) : Char :=
  if n < 10 then Char.ofNat (48 + n) else Char.ofNat (87 + n)

/-- Rust `HEXLOWER_PERMISSIVE.encode`: two lowercase hex digits per byte. -/
def hexlowerEncode (bytes : List Nat) : String :=
  String.mk (bytes.foldr (fun b acc => hexDigitLower (b / 16 % 16) :: hexDigitLower (b % 16) :: acc) [])

/-- Rust `Hash::verify`: encode the digest of the whole stream as lowercase hex and
compare it (exact string equality, `hash == expected_hash`) with the stored hex. -/
def Hash.verify (digest : List Nat → List Nat) (stream : List Nat) (expected_hash : String) : Bool :=
  hexlowerEncode (digest stream) == expected_hash

/-- Rust `Hash::matches`: dispatch on the tag; a `None` hash always verifies.
Read errors of the reader (`Result<bool, io::Error>`) are not modelled: the stream
is given in full. -/
def Hash.matches (sha1f sha256f : List Nat → List Nat) : Hash → List Nat → Bool
  | Hash.sha1 hex, stream => Hash.verify sha1f stream hex
  | Hash.sha256 hex, stream => Hash.verify sha256f stream hex
  | Hash.none, _ => true

/-- ASCII lowercasing of one character (sufficient for hex digests). -/
def charToLower (c : Char) : Char :=
  if 65 <= c.toNat && c.toNat <= 90 then Char.ofNat (c.toNat + 32) else c

/-- Case-insensitive hex comparison, as the spec (claim C6) describes equality.
This definition follows the spec words, for comparison against the code. -/
def hexEqCaseInsensitive (a b : String) : Bool :=
  a.data.map charToLower == b.data.map charToLower

/-! ## `BTreeMap<String, V>` model

Sorted association list: `btInsert` keeps keys strictly ascending and overwrites an
existing binding, `btCollect` is `.collect()` over an iterator of pairs (later pairs
overwrite earlier ones), `btGet?`/`btContains` are `get`/`contains_key`, and the list
itself is the ascending-key iteration order. -/

def btInsert {α : Type} (k : String) (v : α) : List (String × α) → List (String × α)
  | [] => [(k, v)]
  | (k2, v2) :: rest =>
    if k < k2 then (k, v) :: (k2, v2) :: rest
    else if k = k2 then (k, v) :: rest
    else (k2, v2) :: btInsert k v rest

def btCollect {α : Type} (l : List (String × α)) : List (String × α) :=
  l.foldl (fun m kv => btInsert kv.1 kv.2 m) []

def btGet? {α : Type} (m : List (String × α)) (k : String) : Option α :=
  (m.find? (fun kv => kv.1 == k)).map (fun kv => kv.2)

def btContains {α : Type} (m : List (String × α)) (k : String) : Bool :=
  (btGet? m k).isSome

/-! ## Diff engine (`SyncManager::repo_diff`, `src/sync.rs`) -/

/-- Rust `struct CopyOperation` from `src/sync.rs`. -/
structure CopyOperation where
  is_replace : Bool
  path : String
  hash : Hash
  size : Nat
  local_file : Option String
deriving DecidableEq, Repr

/-- Rust `struct DeleteOperation` from `src/sync.rs`. -/
structure DeleteOperation where
  path : String
deriving DecidableEq, Repr

/-- Rust `SyncManager::deduplicate_list`: keep the first occurrence of each element. -/
def deduplicate_list {α : Type} [DecidableEq α] (list : List α) : List α :=
  list.foldl (fun tmp x => if tmp.contains x then tmp else tmp ++ [x]) []

/-- The current collection matched against a new collection inside the `repo_diff`
loop: the first collection of `current_repo` with an equal `Target`, or the empty
collection (`Collection::empty(&collection.target)`). -/
def matchedCurrent (current_repo : Repository) (collection : Collection) : Collection :=
  (current_repo.collections.find? (fun x => x.target == collection.target)).getD
    (Collection.empty collection.target)

/-- Packages-copy contribution of one new collection (body of the `repo_diff` loop):
iterate the `new_packages` map, keep entries missing from or changed in
`current_packages`, and emit a `CopyOperation` with `is_replace` reflecting presence. -/
def collectionPackagesCopy (current_repo : Repository) (collection : Collection) :
    List CopyOperation :=
  let current_collection := matchedCurrent current_repo collection
  let new_packages := btCollect (collection.packages.map (fun x => (x.path, x)))
  let current_packages := btCollect (current_collection.packages.map (fun x => (x.path, x)))
  ((new_packages.filter (fun kv =>
      match btGet? current_packages kv.1 with
      | some current_package => decide (current_package ≠ kv.2)
      | Option.none => true)).map (fun kv =>
        if btContains current_packages kv.1 then
          { path := kv.2.path, hash := kv.2.hash, is_replace := true,
            local_file := Option.none, size := kv.2.size }
        else
          { path := kv.2.path, hash := kv.2.hash, is_replace := false,
            local_file := Option.none, size := kv.2.size }))

/-- Packages-delete contribution of one new collection: iterate the
`current_packages` map and keep the paths absent from the `new_packages` map. -/
def collectionPackagesDelete (current_repo : Repository) (collection : Collection) :
    List DeleteOperation :=
  let current_collection := matchedCurrent current_repo collection
  let new_packages := btCollect (collection.packages.map (fun x => (x.path, x)))
  let current_packages := btCollect (current_collection.packages.map (fun x => (x.path, x)))
  ((current_packages.filter (fun kv => !(btContains new_packages kv.1))).map
    (fun kv => { path := kv.2.path }))

/-- Indexes-copy contribution of one new collection: iterate `collection.indexes`
(the vector itself), skip indexes whose `same_content` matches the current index
with the same path, and emit `CopyOperation`s carrying `local_file = Some(file_path)`. -/
def collectionIndexesCopy (current_repo : Repository) (collection : Collection) :
    List CopyOperation :=
  let current_collection := matchedCurrent current_repo collection
  let current_indexes := btCollect (current_collection.indexes.map (fun x => (x.path, x)))
  ((collection.indexes.filter (fun new_index =>
      match btGet? current_indexes new_index.path with
      | some current_index => !(new_index.same_content current_index)
      | Option.none => true)).map (fun new_index =>
        if btContains current_indexes new_index.path then
          { path := new_index.path, hash := new_index.hash, is_replace := true,
            local_file := some new_index.file_path, size := new_index.size }
        else
          { path := new_index.path, hash := new_index.hash, is_replace := false,
            local_file := some new_index.file_path, size := new_index.size }))

/-- Indexes-delete contribution of one new collection: iterate the current
collection's index vector and keep the paths absent from the `new_indexes` map. -/
def collectionIndexesDelete (current_repo : Repository) (collection : Collection) :
    List DeleteOperation :=
  let current_collection := matchedCurrent current_repo collection
  let new_indexes := btCollect (collection.indexes.map (fun x => (x.path, x)))
  ((current_collection.indexes.filter (fun x => !(btContains new_indexes x.path))).map
    (fun x => { path := x.path }))

/-- Rust `SyncManager::repo_diff`: the loop over `repo.collections` appends the four
per-collection contributions to four accumulators (equivalently, concatenates them
in collection order), and each resulting list is de-duplicated. Returns
`(packages_copy, packages_delete, index_copy, index_delete)`. -/
def repo_diff (repo : Repository) (current_repo : Repository) :
    List CopyOperation × List DeleteOperation × List CopyOperation × List DeleteOperation :=
  (deduplicate_list ((repo.collections.map (collectionPackagesCopy current_repo)).flatten),
   deduplicate_list ((repo.collections.map (collectionPackagesDelete current_repo)).flatten),
   deduplicate_list ((repo.collections.map (collectionIndexesCopy current_repo)).flatten),
   deduplicate_list ((repo.collections.map (collectionIndexesDelete current_repo)).flatten))

/-! ## Apply phase of `SyncManager::sync_repo_internal` (`src/sync.rs`)

The apply phase starts after fetch, signature validation and `load_current` have
produced the new and current `Repository` values. Destination and upstream effects
are an environment of pure functions; the trace records each *completed* destination
operation, in order. The `Phase` tag on an upload records which of the two `copy`
call sites (packages first, then indexes) performed it. -/

/-- Rust `struct FetchError` from `src/fetcher.rs`. -/
structure FetchError where
  code : Nat
  error : String
deriving DecidableEq, Repr

/-- Which `SyncManager::copy` call site performed an upload. -/
inductive Phase where
  | pkg
  | idx
deriving DecidableEq, Repr

/-- A completed destination operation. -/
inductive Event where
  | upload (phase : Phase) (path : String)
  | invalidate (paths : List String)
  | delete (path : String)
  | swap
deriving DecidableEq, Repr

/-- Environment of the apply phase: upstream bytes and destination outcomes. -/
structure SyncEnv where
  /-- Rust `File::open(local_file)` for an index copy: the cached file's bytes, or an error. -/
  openLocal : String → Except String (List Nat)
  /-- Rust `fetcher.fetch(url)` for a package copy: the stream's bytes, or a `FetchError`. -/
  fetchUrl : String → Except FetchError (List Nat)
  /-- does `destination.upload(path, …)` succeed? -/
  uploadOk : String → Bool
  /-- does `destination.invalidate(paths)` succeed? -/
  invalidateOk : Bool
  /-- does `destination.delete(path)` succeed? -/
  deleteOk : String → Bool
  /-- does `metadata_store.replace(…)` succeed? -/
  swapOk : Bool
  /-- SHA-1 digest used by `Hash::matches`. -/
  sha1 : List Nat → List Nat
  /-- SHA-256 digest used by `Hash::matches`. -/
  sha256 : List Nat → List Nat

/-- One iteration of the loop in `SyncManager::copy_internal`: obtain the payload
(local file or fetched stream), verify the hash, verify the size against the
payload length (`tmp_file.metadata().len()`), then upload; on success report the
upload event and, when `is_replace`, the path to invalidate. -/
def copyOne (env : SyncEnv) (phase : Phase) (source_endpoint : String)
    (operation : CopyOperation) : List Event × Except String (List String) :=
  let payload : Except String (List Nat) :=
    match operation.local_file with
    | some f =>
      match env.openLocal f with
      | Except.ok c => Except.ok c
      | Except.error e => Except.error ("cannot copy file: " ++ e)
    | Option.none =>
      match env.fetchUrl (source_endpoint ++ "/" ++ operation.path) with
      | Except.ok c => Except.ok c
      | Except.error e => Except.error ("cannot copy file: " ++ e.error)
  match payload with
  | Except.error e => ([], Except.error e)
  | Except.ok content =>
    if !(Hash.matches env.sha1 env.sha256 operation.hash content) then
      ([], Except.error ("failed hash validation for " ++ operation.path))
    else if operation.size ≠ content.length then
      ([], Except.error ("invalid file size for " ++ operation.path))
    else
      let invalidation := if operation.is_replace then [operation.path] else []
      if env.uploadOk operation.path then
        ([Event.upload phase operation.path], Except.ok invalidation)
      else
        ([], Except.error ("upload failed for " ++ operation.path))

/-- The loop of `SyncManager::copy_internal`: process operations in order, stop at
the first error; on success return the accumulated invalidation paths. -/
def copyList (env : SyncEnv) (phase : Phase) (source_endpoint : String) :
    List CopyOperation → List Event × Except String (List String)
  | [] => ([], Except.ok [])
  | operation :: rest =>
    match copyOne env phase source_endpoint operation with
    | (evs, Except.error e) => (evs, Except.error e)
    | (evs, Except.ok inv) =>
      match copyList env phase source_endpoint rest with
      | (evs2, Except.error e) => (evs ++ evs2, Except.error e)
      | (evs2, Except.ok inv2) => (evs ++ evs2, Except.ok (inv ++ inv2))

/-- A delete loop of `sync_repo_internal`: `destination.delete(&operation.path)?`
for each operation, stopping at the first error. -/
def deleteList (env : SyncEnv) : List DeleteOperation → List Event × Except String Unit
  | [] => ([], Except.ok ())
  | operation :: rest =>
    if env.deleteOk operation.path then
      match deleteList env rest with
      | (evs, r) => (Event.delete operation.path :: evs, r)
    else ([], Except.error ("delete failed for " ++ operation.path))

/-- Apply phase of `SyncManager::sync_repo_internal`: diff, early `Ok` return when
both copy lists are empty, copy packages, copy indexes, invalidate the accumulated
paths, delete packages, delete indexes, atomic metadata swap
(`metadata_store.replace`). Returns the trace of completed destination operations
and the result. -/
def sync_repo_apply (env : SyncEnv) (source_endpoint : String)
    (repo current_repo : Repository) : List Event × Except String Unit :=
  let d := repo_diff repo current_repo
  let packages_copy_list := d.1
  let packages_delete_list := d.2.1
  let index_copy_list := d.2.2.1
  let index_delete_list := d.2.2.2
  if packages_copy_list.isEmpty && index_copy_list.isEmpty then
    ([], Except.ok ())
  else
    match copyList env Phase.pkg source_endpoint packages_copy_list with
    | (evP, Except.error e) => (evP, Except.error e)
    | (evP, Except.ok invP) =>
      match copyList env Phase.idx source_endpoint index_copy_list with
      | (evI, Except.error e) => (evP ++ evI, Except.error e)
      | (evI, Except.ok invI) =>
        let invalidation_paths := invP ++ invI
        if env.invalidateOk then
          match deleteList env packages_delete_list with
          | (evD1, Except.error e) =>
            (evP ++ evI ++ [Event.invalidate invalidation_paths] ++ evD1, Except.error e)
          | (evD1, Except.ok ()) =>
            match deleteList env index_delete_list with
            | (evD2, Except.error e) =>
              (evP ++ evI ++ [Event.invalidate invalidation_paths] ++ evD1 ++ evD2,
               Except.error e)
            | (evD2, Except.ok ()) =>
              if env.swapOk then
                (evP ++ evI ++ [Event.invalidate invalidation_paths] ++ evD1 ++ evD2
                   ++ [Event.swap], Except.ok ())
              else
                (evP ++ evI ++ [Event.invalidate invalidation_paths] ++ evD1 ++ evD2,
                 Except.error "replace failed")
        else
          (evP ++ evI, Except.error "invalidate failed")

/-! ## `RetryFetcher::fetch` (`src/fetcher.rs`)

`fetch` runs `for n in 0..retries`, sleeping `sleep_ms` before every attempt with
`n > 0` (real time is not modelled), calling the wrapped fetcher, returning the
first success, remembering the error otherwise, and after the loop returning
`Err(err.unwrap())` — a panic when the loop body never ran. The wrapped fetcher is
a function from the attempt number to its outcome; the result records the list of
attempt numbers actually made, and `Option.none` as second component models the
`err.unwrap()` panic. -/

def retry_fetch_go {α : Type} (attempt : Nat → Except FetchError α) :
    Nat → Nat → Option FetchError → List Nat × Option (Except FetchError α)
  | 0, _, err => ([], err.map Except.error)
  | k + 1, n, _ =>
    match attempt n with
    | Except.ok v => ([n], some (Except.ok v))
    | Except.error e =>
      let res := retry_fetch_go attempt k (n + 1) (some e)
      (n :: res.1, res.2)

/-- Rust `RetryFetcher::fetch` with `max_retries = retries`. -/
def retry_fetch {α : Type} (attempt : Nat → Except FetchError α) (retries : Nat) :
    List Nat × Option (Except FetchError α) :=
  retry_fetch_go attempt retries 0 Option.none

/-! ## Lock manager (`src/locks.rs`)

The `sync_locks` map (`BTreeMap<String, Arc<AtomicBool>>`) is modelled as the
`BTreeMap` association list from above with `Bool` values. -/

/-- Rust `Lock::is_repo_syncing`: look the repo up in `sync_locks`; a present flag is
returned as is, and a repo with **no entry** yields `true`. -/
def is_repo_syncing (sync_locks : List (String × Bool)) (repo_name : String) : Bool :=
  match btGet? sync_locks repo_name with
  | some atomic => if atomic then true else false
  | Option.none => true

/-- Rust `Lock::try_lock` on the `sync_locks` map: compare-and-set `false → true` on an
existing entry, or create an entry already set. Returns whether a holder was
obtained, and the new map. -/
def try_lock (m : List (String × Bool)) (repo_name : String) :
    Option Unit × List (String × Bool) :=
  match btGet? m repo_name with
  | some atomic =>
    if atomic = false then (some (), btInsert repo_name true m) else (Option.none, m)
  | Option.none => (some (), btInsert repo_name true m)

/-- Rust `LockHolder::drop`: store `false` in the repo's flag. -/
def release_lock (m : List (String × Bool)) (repo_name : String) : List (String × Bool) :=
  btInsert repo_name false m

/-! ## Scheduler status (`SyncManager::queue_sync`, `SyncManager::sync_completed`)

`SystemTime` instants are seconds since the epoch as `Nat`; the config delays are in
minutes, multiplied by 60 as in the source. `queue_sync` computes
`now + min_sync_delay*60 − (now − last_sync)`: the `duration_since(last_sync).unwrap()`
panics when `last_sync > now`, so the definition is meaningful under
`last_sync ≤ now` (stated as a hypothesis where used); under that hypothesis the
truncated `Nat` subtraction agrees with the Rust arithmetic. -/

/-- Rust `struct SyncStatus` (the `current : RepoStatus` field is derived from the lock
manager, not stored; it is omitted here). -/
structure SyncStatus where
  next_sync : Nat
  last_sync : Nat
  last_result : Option String
deriving DecidableEq, Repr

/-- Rust `SyncManager::queue_sync` on one repo's status. -/
def queue_sync (min_sync_delay : Nat) (now : Nat) (status : SyncStatus) : SyncStatus :=
  let tmp_next_sync := now + min_sync_delay * 60 - (now - status.last_sync)
  { status with next_sync := min tmp_next_sync status.next_sync }

/-- Rust `SyncManager::sync_completed` on one repo's status. -/
def sync_completed (max_sync_delay : Nat) (now : Nat) (result : String)
    (status : SyncStatus) : SyncStatus :=
  { status with
    last_sync := now
    next_sync := now + max_sync_delay * 60
    last_result := some result }

/-! ## `SyncManager::load_current` (`src/sync.rs`) -/

/-- Error type of `load_current`: an io error, or the `panic!` on an unknown
repository kind (the Rust function diverges there; the embedding returns a
distinguished error instead). -/
inductive LoadErr where
  | ioError (msg : String)
  | panicked (msg : String)
deriving DecidableEq, Repr

/-- The slice of `RepositoryConfig` that `load_current` consults. -/
structure RepositoryConfig where
  name : String
  kind : String
deriving DecidableEq, Repr

/-- Environment of `load_current`: whether `File::open(&data_path)` succeeds, and
the outcomes of `debian::load_repository` / `redhat::load_repository` (which read
the saved snapshot from disk). A `SavedRepoMetadataStore` is represented by its
directory string. -/
structure LoadEnv where
  openOk : String → Bool
  loadDebian : String → RepositoryConfig → Except LoadErr (Repository × String)
  loadRedhat : String → RepositoryConfig → Except LoadErr (Repository × String)

/-- Rust `SyncManager::load_current`: build `<data_path>/<repo_name>`; when it cannot be
opened return `Ok` with the empty repository and a fresh store on that path; else
dispatch on the source kind. -/
def load_current (env : LoadEnv) (general_data_path : String)
    (repo_config : RepositoryConfig) : Except LoadErr (Repository × String) :=
  let data_path := general_data_path ++ "/" ++ repo_config.name
  if !(env.openOk data_path) then
    Except.ok ({ name := repo_config.name, collections := [] }, data_path)
  else
    match repo_config.kind with
    | "debian" => env.loadDebian data_path repo_config
    | "redhat" => env.loadRedhat data_path repo_config
    | _ => Except.error (LoadErr.panicked ("unknown repo of type " ++ repo_config.kind))

/-! ## Repository construction (`src/debian.rs`, `src/redhat.rs`, `src/utils.rs`)

`fetch_repository_internal` is embedded over an environment providing the metadata
store (`state.fetch` / `state.read`) and the outcomes of the format parsers
(`parse_release`, `parse_packages`, `parse_repomod`); the claims about the
constructed index lists hold for every parser outcome, so the parsers' internals
are not re-modelled here. Text contents are `String`s (the readers feeding the
parsers and `read_to_string`). -/

/-- Rust `std::io::Error` kinds distinguished by this code path. -/
inductive StoreErr where
  | notFound (msg : String)
  | invalidData (msg : String)
  | other (msg : String)
  | panicked (msg : String)
deriving DecidableEq, Repr

/-- Rust `err.kind() == ErrorKind::NotFound`. -/
def StoreErr.isNotFound : StoreErr → Bool
  | StoreErr.notFound _ => true
  | _ => false

/-- Rust `struct RepomodData` from `src/redhat.rs`. -/
structure RepomodData where
  type_ : String
  location : String
  hash : Hash
  size : Nat
deriving DecidableEq, Repr

/-- Rust `struct Release` from `src/debian.rs`. -/
structure Release where
  codename : String
  components : List String
  architectures : List String
  indexes : List IndexFile
deriving DecidableEq, Repr

/-- Environment of `fetch_repository_internal`: the metadata store and the parsers. -/
structure MetaEnv where
  /-- Rust `state.fetch(path)` → `(disk_path, reader contents, size)` or an io error. -/
  fetch : String → Except StoreErr (String × String × Nat)
  /-- Rust `state.read(path).unwrap().unwrap()` in `add_optional_index`; `Option.none`
  models the double-unwrap panic. -/
  readBack : String → Option String
  /-- digest behind `Hash::create_sha256_hash`. -/
  sha256digest : String → List Nat
  /-- Rust `debian::parse_release(reader, base_path)`. -/
  parseRelease : String → String → Except StoreErr Release
  /-- Rust `debian::parse_packages(reader)`. -/
  parsePackagesDeb : String → Except StoreErr (List Package)
  /-- Rust `redhat::parse_repomod(reader)`. -/
  parseRepomd : String → Except StoreErr (List RepomodData)
  /-- Rust `redhat::parse_packages(reader)`. -/
  parsePackagesRh : String → Except StoreErr (List Package)
  /-- Rust `GzDecoder` over the fetched bytes. -/
  gunzip : String → String

/-- Modelled from the spec: `Hash::create_sha256_hash` (called by
`add_optional_index` in `src/utils.rs` but not defined under `src/`) computes the
SHA-256 digest of the stream and stores it as a lowercase-hex sha256 `Hash`
(spec §4.5: content hashing streams the input through the digest). -/
def Hash.create_sha256_hash (digest : String → List Nat) (content : String) : Hash :=
  Hash.sha256 (hexlowerEncode (digest content))

/-- Rust `add_optional_index` from `src/utils.rs`: a `NotFound` fetch is swallowed
(`Ok(None)`, indexes untouched); any other error propagates; on success the new
`IndexFile` is inserted **at position 0** and the file is re-read and returned. -/
def add_optional_index (env : MetaEnv) (path : String) (indexes : List IndexFile)
    (signature : Signature) : Except StoreErr (List IndexFile × Option String) :=
  match env.fetch path with
  | Except.error err =>
    if err.isNotFound then Except.ok (indexes, Option.none) else Except.error err
  | Except.ok (disk_path, content, size) =>
    let idx : IndexFile :=
      { file_path := disk_path, path := path, size := size,
        hash := Hash.create_sha256_hash env.sha256digest content, signature := signature }
    match env.readBack path with
    | some c => Except.ok (idx :: indexes, some c)
    | Option.none => Except.error (StoreErr.panicked "read of optional index failed")

/-- The loop over `release.indexes` in `debian::fetch_repository_internal`: fetch
each listed index, record its on-disk path, fail when the fetched size disagrees
with the size declared in Release, and collect packages from indexes whose path
ends with `Packages`. -/
def processReleaseIndexes (env : MetaEnv) :
    List IndexFile → Except StoreErr (List IndexFile × List Package)
  | [] => Except.ok ([], [])
  | index :: rest =>
    match env.fetch index.path with
    | Except.error e => Except.error e
    | Except.ok (disk_path, content, size) =>
      if index.size ≠ size then
        Except.error (StoreErr.invalidData ("wrong file size for " ++ index.path))
      else
        match (if index.path.endsWith "Packages" then env.parsePackagesDeb content
               else Except.ok []) with
        | Except.error e => Except.error e
        | Except.ok pkgs =>
          match processReleaseIndexes env rest with
          | Except.error e => Except.error e
          | Except.ok (restIndexes, restPackages) =>
            Except.ok ({ index with file_path := disk_path } :: restIndexes,
                       pkgs ++ restPackages)

/-- The per-version loop of `debian::fetch_repository_internal`: fetch
`dists/<codename>/Release` (skipped when missing and `allow_empty`), parse it,
probe the optional `InRelease` and `Release.gpg` indexes, insert the Release
anchor at position 0 (with the detached signature when `Release.gpg` existed),
fetch the listed indexes and build the collection. -/
def debianCollections (env : MetaEnv) (allow_empty : Bool) :
    List String → Except StoreErr (List Collection)
  | [] => Except.ok []
  | version_codename :: restVersions =>
    let version_path := "dists/" ++ version_codename
    let path := version_path ++ "/Release"
    match env.fetch path with
    | Except.error err =>
      if allow_empty && err.isNotFound then
        debianCollections env allow_empty restVersions
      else Except.error err
    | Except.ok (disk_path, content, size) =>
      match env.parseRelease content version_path with
      | Except.error e => Except.error e
      | Except.ok release =>
        match add_optional_index env (version_path ++ "/InRelease") []
            Signature.pgpEmbedded with
        | Except.error e => Except.error e
        | Except.ok (indexes1, _) =>
          match add_optional_index env (version_path ++ "/Release.gpg") indexes1
              Signature.none with
          | Except.error e => Except.error e
          | Except.ok (indexes2, signatureContent) =>
            let anchor : IndexFile :=
              match signatureContent with
              | some text_signature =>
                { file_path := disk_path, path := path, size := size, hash := Hash.none,
                  signature := Signature.pgpExternal text_signature }
              | Option.none =>
                { file_path := disk_path, path := path, size := size, hash := Hash.none,
                  signature := Signature.none }
            match processReleaseIndexes env release.indexes with
            | Except.error e => Except.error e
            | Except.ok (fetchedIndexes, packages) =>
              match debianCollections env allow_empty restVersions with
              | Except.error e => Except.error e
              | Except.ok restCollections =>
                Except.ok
                  ({ target := { release_name := version_codename,
                                 architectures := release.architectures },
                     indexes := anchor :: (indexes2 ++ fetchedIndexes),
                     packages := packages } :: restCollections)

/-- Rust `debian::fetch_repository_internal`. -/
def debian_fetch_repository_internal (env : MetaEnv) (config_name : String)
    (versions : List String) (allow_empty : Bool) : Except StoreErr Repository :=
  (debianCollections env allow_empty versions).map
    (fun cs => { name := config_name, collections := cs })

/-- The loop over repomd entries in `redhat::fetch_repository_internal`: fetch each
referenced file (`.unwrap()` — an error is a panic), parse packages from `primary`
entries (gunzipping `.gz` locations), and push an `IndexFile` per entry. -/
def processRepomdEntries (env : MetaEnv) :
    List RepomodData → Except StoreErr (List IndexFile × List Package)
  | [] => Except.ok ([], [])
  | data :: rest =>
    match env.fetch data.location with
    | Except.error _ => Except.error (StoreErr.panicked "fetch of repomd entry failed")
    | Except.ok (disk_path, content, size) =>
      match (if data.type_ == "primary" then
               env.parsePackagesRh
                 (if data.location.endsWith ".gz" then env.gunzip content else content)
             else Except.ok []) with
      | Except.error e => Except.error e
      | Except.ok pkgs =>
        match processRepomdEntries env rest with
        | Except.error e => Except.error e
        | Except.ok (restIndexes, restPackages) =>
          Except.ok ({ file_path := disk_path, path := data.location, size := size,
                       hash := data.hash, signature := Signature.none } :: restIndexes,
                     pkgs ++ restPackages)

/-- Rust `redhat::fetch_repository_internal`: fetch and parse `repodata/repomd.xml`,
probe the optional `repomd.xml.asc` (inserted at position 0 when present), **push**
the repomd.xml index after it, process the listed entries, and derive the target's
architectures from the packages in first-seen order. -/
def redhat_fetch_repository_internal (env : MetaEnv) (config_name : String) :
    Except StoreErr Repository :=
  let repo_mod_path := "repodata/repomd.xml"
  match env.fetch repo_mod_path with
  | Except.error err => Except.error err
  | Except.ok (disk_path, content, size) =>
    match env.parseRepomd content with
    | Except.error e => Except.error e
    | Except.ok entries =>
      match add_optional_index env (repo_mod_path ++ ".asc") [] Signature.none with
      | Except.error e => Except.error e
      | Except.ok (indexes0, signatureContent) =>
        let anchor : IndexFile :=
          match signatureContent with
          | some text_signature =>
            { file_path := disk_path, path := repo_mod_path, size := size,
              hash := Hash.none, signature := Signature.pgpExternal text_signature }
          | Option.none =>
            { file_path := disk_path, path := repo_mod_path, size := size,
              hash := Hash.none, signature := Signature.none }
        match processRepomdEntries env entries with
        | Except.error e => Except.error e
        | Except.ok (entryIndexes, packages) =>
          let architectures := packages.foldl
            (fun acc x =>
              if !(acc.contains x.architecture) then acc ++ [x.architecture] else acc) []
          Except.ok
            { name := config_name,
              collections := [{ target := { release_name := "",
                                            architectures := architectures },
                                indexes := indexes0 ++ [anchor] ++ entryIndexes,
                                packages := packages }] }

/-! ## Lemmas about the `BTreeMap` model -/

/-- Keys of the association-list map. -/
def btKeys {α : Type} (m : List (String × α)) : List String :=
  m.map Prod.fst

theorem btInsert_cons_lt {α : Type} {k k2 : String} (v : α) {v2 : α}
    {tl : List (String × α)} (h : k < k2) :
    btInsert k v ((k2, v2) :: tl) = (k, v) :: (k2, v2) :: tl := by
  rw [btInsert, if_pos h]

theorem btInsert_cons_eq {α : Type} {k k2 : String} (v : α) {v2 : α}
    {tl : List (String × α)} (h1 : ¬k < k2) (h2 : k = k2) :
    btInsert k v ((k2, v2) :: tl) = (k, v) :: tl := by
  rw [btInsert, if_neg h1, if_pos h2]

theorem btInsert_cons_gt {α : Type} {k k2 : String} (v : α) {v2 : α}
    {tl : List (String × α)} (h1 : ¬k < k2) (h2 : ¬k = k2) :
    btInsert k v ((k2, v2) :: tl) = (k2, v2) :: btInsert k v tl := by
  rw [btInsert, if_neg h1, if_neg h2]

theorem btGet?_cons_self {α : Type} (k : String) (v : α) (tl : List (String × α)) :
    btGet? ((k, v) :: tl) k = some v := by
  simp [btGet?]

theorem btGet?_cons_ne {α : Type} {k2 k' : String} (v2 : α) (tl : List (String × α))
    (h : k2 ≠ k') : btGet? ((k2, v2) :: tl) k' = btGet? tl k' := by
  have hb : (k2 == k') = false := by simpa using h
  simp [btGet?, List.find?_cons, hb]

theorem btGet?_insert_self {α : Type} (k : String) (v : α) (m : List (String × α)) :
    btGet? (btInsert k v m) k = some v := by
  induction m with
  | nil => simp [btInsert, btGet?]
  | cons hd tl ih =>
    obtain ⟨k2, v2⟩ := hd
    by_cases h1 : k < k2
    · rw [btInsert_cons_lt v h1, btGet?_cons_self]
    · by_cases h2 : k = k2
      · rw [btInsert_cons_eq v h1 h2, btGet?_cons_self]
      · rw [btInsert_cons_gt v h1 h2, btGet?_cons_ne v2 _ (fun hc => h2 hc.symm), ih]

theorem btGet?_insert_ne {α : Type} (k k' : String) (v : α) (m : List (String × α))
    (h : k' ≠ k) : btGet? (btInsert k v m) k' = btGet? m k' := by
  induction m with
  | nil =>
    have hb : (k == k') = false := by simpa using fun hc => h hc.symm
    simp [btInsert, btGet?, hb]
  | cons hd tl ih =>
    obtain ⟨k2, v2⟩ := hd
    by_cases h1 : k < k2
    · rw [btInsert_cons_lt v h1, btGet?_cons_ne v (_ :: tl) (fun hc => h (hc.symm))]
    · by_cases h2 : k = k2
      · subst h2
        rw [btInsert_cons_eq v h1 rfl, btGet?_cons_ne v tl (fun hc => h hc.symm),
          btGet?_cons_ne v2 tl (fun hc => h hc.symm)]
      · by_cases h3 : k2 = k'
        · subst h3
          rw [btInsert_cons_gt v h1 h2, btGet?_cons_self, btGet?_cons_self]
        · rw [btInsert_cons_gt v h1 h2, btGet?_cons_ne v2 _ h3, btGet?_cons_ne v2 _ h3, ih]

theorem mem_btInsert {α : Type} (kv : String × α) (k : String) (v : α)
    (m : List (String × α)) (hm : kv ∈ btInsert k v m) : kv = (k, v) ∨ kv ∈ m := by
  induction m with
  | nil => simpa [btInsert] using hm
  | cons hd tl ih =>
    obtain ⟨k2, v2⟩ := hd
    by_cases h1 : k < k2
    · rw [btInsert_cons_lt v h1] at hm
      rcases List.mem_cons.mp hm with hc | hc
      · exact Or.inl hc
      · exact Or.inr hc
    · by_cases h2 : k = k2
      · rw [btInsert_cons_eq v h1 h2] at hm
        rcases List.mem_cons.mp hm with hc | hc
        · exact Or.inl hc
        · exact Or.inr (List.mem_cons_of_mem _ hc)
      · rw [btInsert_cons_gt v h1 h2] at hm
        rcases List.mem_cons.mp hm with hc | hc
        · exact Or.inr (by simp [hc])
        · rcases ih hc with hc' | hc'
          · exact Or.inl hc'
          · exact Or.inr (List.mem_cons_of_mem _ hc')

theorem mem_btKeys_insert {α : Type} (a k : String) (v : α) (m : List (String × α)) :
    a ∈ btKeys (btInsert k v m) ↔ a = k ∨ a ∈ btKeys m := by
  induction m with
  | nil => simp [btInsert, btKeys]
  | cons hd tl ih =>
    obtain ⟨k2, v2⟩ := hd
    by_cases h1 : k < k2
    · rw [btInsert_cons_lt v h1]
      simp only [btKeys, List.map_cons, List.mem_cons]
    · by_cases h2 : k = k2
      · rw [btInsert_cons_eq v h1 h2]
        simp only [btKeys, List.map_cons, List.mem_cons]
        subst h2
        tauto
      · rw [btInsert_cons_gt v h1 h2]
        simp only [btKeys, List.map_cons, List.mem_cons] at ih ⊢
        rw [ih]
        tauto

/-- The map invariant: keys strictly ascending. -/
def btSorted {α : Type} (m : List (String × α)) : Prop :=
  List.Pairwise (fun x y : String × α => x.1 < y.1) m

theorem btSorted_insert {α : Type} (k : String) (v : α) (m : List (String × α))
    (h : btSorted m) : btSorted (btInsert k v m) := by
  induction m with
  | nil => simp [btInsert, btSorted]
  | cons hd tl ih =>
    obtain ⟨k2, v2⟩ := hd
    rw [btSorted, List.pairwise_cons] at h
    by_cases h1 : k < k2
    · rw [btInsert_cons_lt v h1]
      rw [btSorted, List.pairwise_cons]
      constructor
      · intro y hy
        rcases List.mem_cons.mp hy with hc | hc
        · simpa [hc] using h1
        · exact lt_trans h1 (h.1 y hc)
      · exact List.pairwise_cons.mpr ⟨h.1, h.2⟩
    · by_cases h2 : k = k2
      · subst h2
        rw [btInsert_cons_eq v h1 rfl]
        rw [btSorted, List.pairwise_cons]
        exact ⟨h.1, h.2⟩
      · have hlt : k2 < k := lt_of_le_of_ne (le_of_not_lt h1) (fun hc => h2 hc.symm)
        rw [btInsert_cons_gt v h1 h2]
        rw [btSorted, List.pairwise_cons]
        refine ⟨?_, ih h.2⟩
        intro y hy
        rcases mem_btInsert y k v tl hy with hc | hc
        · simpa [hc] using hlt
        · exact h.1 y hc

theorem btSorted_nodup_keys {α : Type} (m : List (String × α)) (h : btSorted m) :
    (btKeys m).Nodup := by
  rw [btKeys, List.Nodup, List.pairwise_map]
  exact h.imp (fun hlt => ne_of_lt hlt)

theorem btSorted_foldl {α : Type} (l : List (String × α)) (m : List (String × α))
    (h : btSorted m) :
    btSorted (l.foldl (fun m kv => btInsert kv.1 kv.2 m) m) := by
  induction l generalizing m with
  | nil => simpa using h
  | cons p tl ih => exact ih _ (btSorted_insert p.1 p.2 m h)

theorem btSorted_btCollect {α : Type} (l : List (String × α)) : btSorted (btCollect l) :=
  btSorted_foldl l [] (by simp [btSorted])

theorem mem_of_btGet?_eq_some {α : Type} {m : List (String × α)} {k : String} {v : α}
    (h : btGet? m k = some v) : (k, v) ∈ m := by
  rw [btGet?] at h
  rcases Option.map_eq_some'.mp h with ⟨kv, hfind, hv⟩
  have h1 : kv.1 = k := by simpa using List.find?_some hfind
  have h2 : kv ∈ m := List.mem_of_find?_eq_some hfind
  have : (k, v) = kv := by
    obtain ⟨a, b⟩ := kv
    simp only at h1 hv
    simp [h1, hv]
  rw [this]
  exact h2

theorem btGet?_eq_some_of_mem {α : Type} {m : List (String × α)} {k : String} {v : α}
    (hnd : (btKeys m).Nodup) (h : (k, v) ∈ m) : btGet? m k = some v := by
  induction m with
  | nil => simp at h
  | cons hd tl ih =>
    obtain ⟨k2, v2⟩ := hd
    simp only [btKeys, List.map_cons, List.nodup_cons] at hnd
    rcases List.mem_cons.mp h with hc | hc
    · obtain ⟨hk, hv⟩ := Prod.mk.injEq .. ▸ hc
      subst hk
      subst hv
      exact btGet?_cons_self k v tl
    · by_cases hk : k2 = k
      · exfalso
        apply hnd.1
        rw [hk]
        exact List.mem_map.mpr ⟨(k, v), hc, rfl⟩
      · rw [btGet?_cons_ne v2 tl hk]
        exact ih hnd.2 hc

theorem btGet?_foldl_of_not_mem {α : Type} (l : List (String × α))
    (m : List (String × α)) (k : String) (h : k ∉ btKeys l) :
    btGet? (l.foldl (fun m kv => btInsert kv.1 kv.2 m) m) k = btGet? m k := by
  induction l generalizing m with
  | nil => rfl
  | cons p tl ih =>
    simp only [btKeys, List.map_cons, List.mem_cons, not_or] at h
    rw [List.foldl_cons, ih _ (by simpa [btKeys] using h.2),
      btGet?_insert_ne p.1 k p.2 m h.1]

theorem mem_foldl_btInsert {α : Type} (l : List (String × α)) (m : List (String × α))
    (kv : String × α)
    (h : kv ∈ l.foldl (fun m kv => btInsert kv.1 kv.2 m) m) : kv ∈ l ∨ kv ∈ m := by
  induction l generalizing m with
  | nil => exact Or.inr (by simpa using h)
  | cons p tl ih =>
    rw [List.foldl_cons] at h
    rcases ih _ h with hc | hc
    · exact Or.inl (List.mem_cons_of_mem _ hc)
    · rcases mem_btInsert kv p.1 p.2 m hc with hc' | hc'
      · exact Or.inl (by simp [hc'])
      · exact Or.inr hc'

theorem btGet?_foldl_of_mem {α : Type} (l : List (String × α)) (k : String) (v : α)
    (hnd : (l.map Prod.fst).Nodup) (h : (k, v) ∈ l) (m : List (String × α)) :
    btGet? (l.foldl (fun m kv => btInsert kv.1 kv.2 m) m) k = some v := by
  induction l generalizing m with
  | nil => simp at h
  | cons p tl ih =>
    simp only [List.map_cons, List.nodup_cons] at hnd
    rw [List.foldl_cons]
    rcases List.mem_cons.mp h with hc | hc
    · have hk : p.1 = k := by rw [← hc]
      have hknot : k ∉ btKeys tl := by
        rw [btKeys, ← hk]
        exact hnd.1
      rw [btGet?_foldl_of_not_mem tl _ k hknot, ← hc]
      exact btGet?_insert_self k v m
    · exact ih hnd.2 hc _

theorem btGet?_btCollect_of_mem {α : Type} {l : List (String × α)} {k : String} {v : α}
    (hnd : (l.map Prod.fst).Nodup) (h : (k, v) ∈ l) :
    btGet? (btCollect l) k = some v :=
  btGet?_foldl_of_mem l k v hnd h []

theorem mem_btCollect_iff {α : Type} (l : List (String × α)) (kv : String × α)
    (hnd : (l.map Prod.fst).Nodup) : kv ∈ btCollect l ↔ kv ∈ l := by
  constructor
  · intro h
    rcases mem_foldl_btInsert l [] kv h with hc | hc
    · exact hc
    · simp at hc
  · intro h
    obtain ⟨k, v⟩ := kv
    exact mem_of_btGet?_eq_some (btGet?_btCollect_of_mem hnd h)

theorem btContains_foldl {α : Type} (l : List (String × α)) (k : String)
    (m : List (String × α)) :
    (btGet? (l.foldl (fun m kv => btInsert kv.1 kv.2 m) m) k).isSome = true ↔
      k ∈ l.map Prod.fst ∨ (btGet? m k).isSome = true := by
  induction l generalizing m with
  | nil => simp
  | cons p tl ih =>
    rw [List.foldl_cons, ih]
    have hins : (btGet? (btInsert p.1 p.2 m) k).isSome = true ↔
        k = p.1 ∨ (btGet? m k).isSome = true := by
      by_cases hk : k = p.1
      · subst hk
        rw [btGet?_insert_self]
        simp
      · rw [btGet?_insert_ne p.1 k p.2 m hk]
        simp [hk]
    rw [hins]
    simp only [List.map_cons, List.mem_cons]
    tauto

theorem btContains_btCollect {α : Type} (l : List (String × α)) (k : String) :
    btContains (btCollect l) k = true ↔ k ∈ l.map Prod.fst := by
  rw [btContains, btCollect, btContains_foldl]
  simp [btGet?]

theorem btGet?_btCollect_eq_none {α : Type} (l : List (String × α)) (k : String) :
    btGet? (btCollect l) k = Option.none ↔ k ∉ l.map Prod.fst := by
  rw [← btContains_btCollect l k, btContains]
  cases h : btGet? (btCollect l) k <;> simp

/-! ## Lemmas about `deduplicate_list` -/

theorem mem_deduplicate_foldl {α : Type} [DecidableEq α] (l acc : List α) (x : α) :
    x ∈ l.foldl (fun tmp y => if tmp.contains y then tmp else tmp ++ [y]) acc ↔
      x ∈ acc ∨ x ∈ l := by
  induction l generalizing acc with
  | nil => simp
  | cons y tl ih =>
    rw [List.foldl_cons]
    by_cases hc : acc.contains y = true
    · have hy : y ∈ acc := List.elem_iff.mp hc
      rw [if_pos hc, ih]
      simp only [List.mem_cons]
      constructor
      · tauto
      · rintro (h | h | h)
        · exact Or.inl h
        · exact Or.inl (h ▸ hy)
        · exact Or.inr h
    · rw [if_neg hc, ih]
      simp only [List.mem_append, List.mem_singleton, List.mem_cons]
      tauto

theorem mem_deduplicate_list {α : Type} [DecidableEq α] (l : List α) (x : α) :
    x ∈ deduplicate_list l ↔ x ∈ l := by
  rw [deduplicate_list, mem_deduplicate_foldl]
  simp

theorem nodup_deduplicate_foldl {α : Type} [DecidableEq α] (l acc : List α)
    (h : acc.Nodup) :
    (l.foldl (fun tmp y => if tmp.contains y then tmp else tmp ++ [y]) acc).Nodup := by
  induction l generalizing acc with
  | nil => exact h
  | cons y tl ih =>
    rw [List.foldl_cons]
    by_cases hc : acc.contains y = true
    · rw [if_pos hc]
      exact ih _ h
    · rw [if_neg hc]
      apply ih
      rw [List.nodup_append]
      refine ⟨h, List.nodup_singleton y, ?_⟩
      intro x hx
      simp only [List.mem_singleton]
      intro he
      exact hc (List.elem_iff.mpr (he ▸ hx))

theorem nodup_deduplicate_list {α : Type} [DecidableEq α] (l : List α) :
    (deduplicate_list l).Nodup :=
  nodup_deduplicate_foldl l [] (by simp)

/-- With pairwise-distinct targets, the `find?` inside `repo_diff` matched against
one of the list's own collections returns that collection. -/
theorem find?_target_self (collections : List Collection) (c : Collection)
    (hnd : (collections.map Collection.target).Nodup) (hc : c ∈ collections) :
    collections.find? (fun x => x.target == c.target) = some c := by
  induction collections with
  | nil => simp at hc
  | cons d tl ih =>
    simp only [List.map_cons, List.nodup_cons] at hnd
    rcases List.mem_cons.mp hc with hc' | hc'
    · subst hc'
      simp [List.find?_cons]
    · by_cases hd : (d.target == c.target) = true
      · exfalso
        apply hnd.1
        have htl : d.target = c.target := by simpa using hd
        rw [htl]
        exact List.mem_map.mpr ⟨c, hc', rfl⟩
      · rw [List.find?_cons_of_neg _ (by simpa using hd)]
        exact ih hnd.2 hc'

/-! ## Membership characterization of the per-collection diff lists -/

theorem map_fst_package_pairs (pkgs : List Package) :
    (pkgs.map (fun x => (x.path, x))).map Prod.fst = pkgs.map Package.path := by
  rw [List.map_map]
  rfl

theorem map_fst_index_pairs (idxs : List IndexFile) :
    (idxs.map (fun x => (x.path, x))).map Prod.fst = idxs.map IndexFile.path := by
  rw [List.map_map]
  rfl

theorem mem_package_pairs (pkgs : List Package) (kv : String × Package) :
    kv ∈ pkgs.map (fun x => (x.path, x)) ↔ kv.2 ∈ pkgs ∧ kv.1 = kv.2.path := by
  obtain ⟨k, v⟩ := kv
  rw [List.mem_map]
  constructor
  · rintro ⟨x, hx, hxy⟩
    obtain ⟨h1, h2⟩ := Prod.mk.injEq .. ▸ hxy
    subst h2
    exact ⟨hx, h1.symm⟩
  · rintro ⟨hv, hk⟩
    simp only at hv hk
    exact ⟨v, hv, by rw [hk]⟩

theorem mem_collectionPackagesCopy (current_repo : Repository) (collection : Collection)
    (hnew : (collection.packages.map Package.path).Nodup)
    (hcur : ((matchedCurrent current_repo collection).packages.map Package.path).Nodup)
    (e : CopyOperation) :
    e ∈ collectionPackagesCopy current_repo collection ↔
      ∃ p ∈ collection.packages,
        ((∀ q ∈ (matchedCurrent current_repo collection).packages, q.path ≠ p.path) ∧
          e = { is_replace := false, path := p.path, hash := p.hash, size := p.size,
                local_file := Option.none }) ∨
        (∃ q ∈ (matchedCurrent current_repo collection).packages,
          q.path = p.path ∧ q ≠ p ∧
          e = { is_replace := true, path := p.path, hash := p.hash, size := p.size,
                local_file := Option.none }) := by
  have hnewKeys : ((collection.packages.map (fun x => (x.path, x))).map Prod.fst).Nodup := by
    rw [map_fst_package_pairs]
    exact hnew
  have hcurKeys :
      (((matchedCurrent current_repo collection).packages.map
        (fun x => (x.path, x))).map Prod.fst).Nodup := by
    rw [map_fst_package_pairs]
    exact hcur
  rw [collectionPackagesCopy]
  simp only [List.mem_map, List.mem_filter]
  constructor
  · rintro ⟨kv, ⟨hmem, hcond⟩, rfl⟩
    have hpairs := (mem_btCollect_iff _ kv hnewKeys).mp hmem
    obtain ⟨hp, hk⟩ := (mem_package_pairs _ kv).mp hpairs
    obtain ⟨k, p⟩ := kv
    simp only at hp hk
    subst hk
    refine ⟨p, hp, ?_⟩
    rcases hq : btGet? (btCollect ((matchedCurrent current_repo collection).packages.map
        (fun x => (x.path, x)))) p.path with _ | q
    · left
      have hnone := (btGet?_btCollect_eq_none _ p.path).mp hq
      rw [map_fst_package_pairs] at hnone
      refine ⟨?_, ?_⟩
      · intro q hqmem hc
        exact hnone (List.mem_map.mpr ⟨q, hqmem, hc⟩)
      · simp only [btContains, hq, Option.isSome]
        rfl
    · right
      have hqmem := (mem_btCollect_iff _ (p.path, q) hcurKeys).mp (mem_of_btGet?_eq_some hq)
      obtain ⟨hq2, hq1⟩ := (mem_package_pairs _ (p.path, q)).mp hqmem
      simp only at hq1 hq2
      have hne : q ≠ p := by
        simp only [hq] at hcond
        simpa using hcond
      refine ⟨q, hq2, hq1.symm, hne, ?_⟩
      simp only [btContains, hq, Option.isSome]
      rfl
  · rintro ⟨p, hp, hcase⟩
    rcases hcase with ⟨habsent, rfl⟩ | ⟨q, hqmem, hqpath, hqne, rfl⟩
    · have hnone : btGet? (btCollect ((matchedCurrent current_repo collection).packages.map
          (fun x => (x.path, x)))) p.path = Option.none := by
        rw [btGet?_btCollect_eq_none, map_fst_package_pairs]
        intro hc
        rcases List.mem_map.mp hc with ⟨q, hqmem, hqpath⟩
        exact habsent q hqmem hqpath
      refine ⟨(p.path, p), ⟨?_, ?_⟩, ?_⟩
      · exact (mem_btCollect_iff _ _ hnewKeys).mpr ((mem_package_pairs _ _).mpr ⟨hp, rfl⟩)
      · simp only [hnone]
      · simp only [btContains, hnone, Option.isSome]
        rfl
    · have hsome : btGet? (btCollect ((matchedCurrent current_repo collection).packages.map
          (fun x => (x.path, x)))) p.path = some q := by
        apply btGet?_btCollect_of_mem hcurKeys
        exact (mem_package_pairs _ (p.path, q)).mpr ⟨hqmem, hqpath.symm⟩
      refine ⟨(p.path, p), ⟨?_, ?_⟩, ?_⟩
      · exact (mem_btCollect_iff _ _ hnewKeys).mpr ((mem_package_pairs _ _).mpr ⟨hp, rfl⟩)
      · simp only [hsome]
        simpa using hqne
      · simp only [btContains, hsome, Option.isSome]
        rfl

theorem mem_index_pairs (idxs : List IndexFile) (kv : String × IndexFile) :
    kv ∈ idxs.map (fun x => (x.path, x)) ↔ kv.2 ∈ idxs ∧ kv.1 = kv.2.path := by
  obtain ⟨k, v⟩ := kv
  rw [List.mem_map]
  constructor
  · rintro ⟨x, hx, hxy⟩
    obtain ⟨h1, h2⟩ := Prod.mk.injEq .. ▸ hxy
    subst h2
    exact ⟨hx, h1.symm⟩
  · rintro ⟨hv, hk⟩
    simp only at hv hk
    exact ⟨v, hv, by rw [hk]⟩

theorem mem_collectionPackagesDelete (current_repo : Repository) (collection : Collection)
    (hcur : ((matchedCurrent current_repo collection).packages.map Package.path).Nodup)
    (d : DeleteOperation) :
    d ∈ collectionPackagesDelete current_repo collection ↔
      ∃ q ∈ (matchedCurrent current_repo collection).packages,
        (∀ p ∈ collection.packages, p.path ≠ q.path) ∧ d = { path := q.path } := by
  have hcurKeys : (((matchedCurrent current_repo collection).packages.map
      (fun x => (x.path, x))).map Prod.fst).Nodup := by
    rw [map_fst_package_pairs]
    exact hcur
  rw [collectionPackagesDelete]
  simp only [List.mem_map, List.mem_filter]
  constructor
  · rintro ⟨kv, ⟨hmem, hcond⟩, rfl⟩
    have hpairs := (mem_btCollect_iff _ kv hcurKeys).mp hmem
    obtain ⟨hq, hk⟩ := (mem_package_pairs _ kv).mp hpairs
    obtain ⟨k, q⟩ := kv
    simp only at hq hk
    subst hk
    refine ⟨q, hq, ?_, rfl⟩
    intro p hp hc
    have hcontains : btContains (btCollect (collection.packages.map
        (fun x => (x.path, x)))) q.path = true := by
      rw [btContains_btCollect, map_fst_package_pairs]
      exact List.mem_map.mpr ⟨p, hp, hc⟩
    simp [hcontains] at hcond
  · rintro ⟨q, hq, habsent, rfl⟩
    refine ⟨(q.path, q), ⟨?_, ?_⟩, rfl⟩
    · exact (mem_btCollect_iff _ _ hcurKeys).mpr ((mem_package_pairs _ _).mpr ⟨hq, rfl⟩)
    · cases hcont : btContains (btCollect (collection.packages.map
          (fun x => (x.path, x)))) q.path with
      | false => simp [hcont]
      | true =>
        exfalso
        have hmemk := (btContains_btCollect _ _).mp hcont
        rw [map_fst_package_pairs] at hmemk
        rcases List.mem_map.mp hmemk with ⟨p, hp, hpq⟩
        exact habsent p hp hpq

theorem mem_collectionIndexesCopy (current_repo : Repository) (collection : Collection)
    (hcur : ((matchedCurrent current_repo collection).indexes.map IndexFile.path).Nodup)
    (e : CopyOperation) :
    e ∈ collectionIndexesCopy current_repo collection ↔
      ∃ idx ∈ collection.indexes,
        ((∀ j ∈ (matchedCurrent current_repo collection).indexes, j.path ≠ idx.path) ∧
          e = { is_replace := false, path := idx.path, hash := idx.hash, size := idx.size,
                local_file := some idx.file_path }) ∨
        (∃ j ∈ (matchedCurrent current_repo collection).indexes,
          j.path = idx.path ∧ idx.same_content j = false ∧
          e = { is_replace := true, path := idx.path, hash := idx.hash, size := idx.size,
                local_file := some idx.file_path }) := by
  have hcurKeys : (((matchedCurrent current_repo collection).indexes.map
      (fun x => (x.path, x))).map Prod.fst).Nodup := by
    rw [map_fst_index_pairs]
    exact hcur
  rw [collectionIndexesCopy]
  simp only [List.mem_map, List.mem_filter]
  constructor
  · rintro ⟨idx, ⟨hmem, hcond⟩, rfl⟩
    refine ⟨idx, hmem, ?_⟩
    rcases hq : btGet? (btCollect ((matchedCurrent current_repo collection).indexes.map
        (fun x => (x.path, x)))) idx.path with _ | j
    · left
      have hnone := (btGet?_btCollect_eq_none _ idx.path).mp hq
      rw [map_fst_index_pairs] at hnone
      refine ⟨?_, ?_⟩
      · intro j hjmem hc
        exact hnone (List.mem_map.mpr ⟨j, hjmem, hc⟩)
      · simp only [btContains, hq, Option.isSome]
        rfl
    · right
      have hjmem := (mem_btCollect_iff _ (idx.path, j) hcurKeys).mp (mem_of_btGet?_eq_some hq)
      obtain ⟨hj2, hj1⟩ := (mem_index_pairs _ (idx.path, j)).mp hjmem
      simp only at hj1 hj2
      have hnsame : idx.same_content j = false := by
        simp only [hq] at hcond
        simpa using hcond
      refine ⟨j, hj2, hj1.symm, hnsame, ?_⟩
      simp only [btContains, hq, Option.isSome]
      rfl
  · rintro ⟨idx, hidx, hcase⟩
    rcases hcase with ⟨habsent, rfl⟩ | ⟨j, hjmem, hjpath, hnsame, rfl⟩
    · have hnone : btGet? (btCollect ((matchedCurrent current_repo collection).indexes.map
          (fun x => (x.path, x)))) idx.path = Option.none := by
        rw [btGet?_btCollect_eq_none, map_fst_index_pairs]
        intro hc
        rcases List.mem_map.mp hc with ⟨j, hjmem, hjpath⟩
        exact habsent j hjmem hjpath
      refine ⟨idx, ⟨hidx, ?_⟩, ?_⟩
      · simp only [hnone]
      · simp only [btContains, hnone, Option.isSome]
        rfl
    · have hsome : btGet? (btCollect ((matchedCurrent current_repo collection).indexes.map
          (fun x => (x.path, x)))) idx.path = some j := by
        apply btGet?_btCollect_of_mem hcurKeys
        exact (mem_index_pairs _ (idx.path, j)).mpr ⟨hjmem, hjpath.symm⟩
      refine ⟨idx, ⟨hidx, ?_⟩, ?_⟩
      · simp only [hsome]
        simpa using hnsame
      · simp only [btContains, hsome, Option.isSome]
        rfl

theorem mem_collectionIndexesDelete (current_repo : Repository) (collection : Collection)
    (d : DeleteOperation) :
    d ∈ collectionIndexesDelete current_repo collection ↔
      ∃ j ∈ (matchedCurrent current_repo collection).indexes,
        (∀ idx ∈ collection.indexes, idx.path ≠ j.path) ∧ d = { path := j.path } := by
  rw [collectionIndexesDelete]
  simp only [List.mem_map, List.mem_filter]
  constructor
  · rintro ⟨j, ⟨hmem, hcond⟩, rfl⟩
    refine ⟨j, hmem, ?_, rfl⟩
    intro idx hidx hc
    have hcontains : btContains (btCollect (collection.indexes.map
        (fun x => (x.path, x)))) j.path = true := by
      rw [btContains_btCollect, map_fst_index_pairs]
      exact List.mem_map.mpr ⟨idx, hidx, hc⟩
    simp [hcontains] at hcond
  · rintro ⟨j, hj, habsent, rfl⟩
    refine ⟨j, ⟨hj, ?_⟩, rfl⟩
    cases hcont : btContains (btCollect (collection.indexes.map
        (fun x => (x.path, x)))) j.path with
    | false => simp [hcont]
    | true =>
      exfalso
      have hmemk := (btContains_btCollect _ _).mp hcont
      rw [map_fst_index_pairs] at hmemk
      rcases List.mem_map.mp hmemk with ⟨idx, hidx, hpq⟩
      exact habsent idx hidx hpq

/-! ## Claim C2 -/

theorem repo_diff_fst (repo current_repo : Repository) :
    (repo_diff repo current_repo).1 =
      deduplicate_list ((repo.collections.map (collectionPackagesCopy current_repo)).flatten) :=
  rfl

theorem repo_diff_snd (repo current_repo : Repository) :
    (repo_diff repo current_repo).2.1 =
      deduplicate_list ((repo.collections.map (collectionPackagesDelete current_repo)).flatten) :=
  rfl

theorem repo_diff_thd (repo current_repo : Repository) :
    (repo_diff repo current_repo).2.2.1 =
      deduplicate_list ((repo.collections.map (collectionIndexesCopy current_repo)).flatten) :=
  rfl

theorem repo_diff_fth (repo current_repo : Repository) :
    (repo_diff repo current_repo).2.2.2 =
      deduplicate_list ((repo.collections.map (collectionIndexesDelete current_repo)).flatten) :=
  rfl

theorem same_content_refl (a : IndexFile) : a.same_content a = true := by
  simp [IndexFile.same_content]

/-- The current repository of the counterexample: one `focal` collection holding one
package. -/
def c2CurrentRepo : Repository :=
  { name := "test-ubuntu",
    collections :=
      [{ target := { release_name := "focal", architectures := ["amd64"] },
         indexes := [],
         packages :=
           [{ name := "service-discover-agent", version := "0.1.0",
              architecture := "amd64",
              path := "pool/service-discover-agent_0.1.0_amd64.deb",
              hash := Hash.sha256 "9ed5", size := 20 }] }] }

/-- The new repository of the counterexample: no collections at all (e.g. the
`Release` file of every configured codename has disappeared upstream and
`allow_empty` skipped them). -/
def c2NewRepo : Repository :=
  { name := "test-ubuntu", collections := [] }

/-- Claim C2 states `packages_delete` contains **exactly** the current package paths
not present among the new package paths. Counterexample: the current repository
holds a package and the new repository has no collection with a matching target, so
that path is absent from the new paths — yet `repo_diff` emits **no** delete
operation, because the loop iterates only the new repository's collections. -/
theorem repo_diff_orphan_collection_counterexample :
    (repo_diff c2NewRepo c2CurrentRepo).2.1 = [] ∧
    "pool/service-discover-agent_0.1.0_amd64.deb" ∈
      (c2CurrentRepo.collections.map (fun c => c.packages.map Package.path)).flatten ∧
    "pool/service-discover-agent_0.1.0_amd64.deb" ∉
      (c2NewRepo.collections.map (fun c => c.packages.map Package.path)).flatten := by
  refine ⟨by decide, by decide, by decide⟩

/-- C2 (amended): with collections matched per new collection by Target equality
(the first current collection with an equal target; absent ⇒ empty), and assuming
pairwise-distinct package paths per new collection and pairwise-distinct package and
index paths per current collection, the four lists of `repo_diff` are duplicate-free
and contain exactly the entries described per new collection; current collections
whose target matches no new collection contribute nothing (they are never visited);
and diffing a repository against itself (distinct targets) yields four empty lists. -/
theorem repo_diff_characterization (repo current_repo : Repository)
    (hnew : ∀ c ∈ repo.collections, (c.packages.map Package.path).Nodup)
    (hcur : ∀ c ∈ current_repo.collections,
      (c.packages.map Package.path).Nodup ∧ (c.indexes.map IndexFile.path).Nodup) :
    ((repo_diff repo current_repo).1.Nodup ∧ (repo_diff repo current_repo).2.1.Nodup ∧
      (repo_diff repo current_repo).2.2.1.Nodup ∧
      (repo_diff repo current_repo).2.2.2.Nodup) ∧
    (∀ e, e ∈ (repo_diff repo current_repo).1 ↔
      ∃ c ∈ repo.collections, ∃ p ∈ c.packages,
        ((∀ q ∈ (matchedCurrent current_repo c).packages, q.path ≠ p.path) ∧
          e = { is_replace := false, path := p.path, hash := p.hash, size := p.size,
                local_file := Option.none }) ∨
        (∃ q ∈ (matchedCurrent current_repo c).packages, q.path = p.path ∧ q ≠ p ∧
          e = { is_replace := true, path := p.path, hash := p.hash, size := p.size,
                local_file := Option.none })) ∧
    (∀ d, d ∈ (repo_diff repo current_repo).2.1 ↔
      ∃ c ∈ repo.collections, ∃ q ∈ (matchedCurrent current_repo c).packages,
        (∀ p ∈ c.packages, p.path ≠ q.path) ∧ d = { path := q.path }) ∧
    (∀ e, e ∈ (repo_diff repo current_repo).2.2.1 ↔
      ∃ c ∈ repo.collections, ∃ idx ∈ c.indexes,
        ((∀ j ∈ (matchedCurrent current_repo c).indexes, j.path ≠ idx.path) ∧
          e = { is_replace := false, path := idx.path, hash := idx.hash, size := idx.size,
                local_file := some idx.file_path }) ∨
        (∃ j ∈ (matchedCurrent current_repo c).indexes, j.path = idx.path ∧
          idx.same_content j = false ∧
          e = { is_replace := true, path := idx.path, hash := idx.hash, size := idx.size,
                local_file := some idx.file_path })) ∧
    (∀ d, d ∈ (repo_diff repo current_repo).2.2.2 ↔
      ∃ c ∈ repo.collections, ∃ j ∈ (matchedCurrent current_repo c).indexes,
        (∀ idx ∈ c.indexes, idx.path ≠ j.path) ∧ d = { path := j.path }) ∧
    (current_repo = repo → (repo.collections.map Collection.target).Nodup →
      repo_diff repo repo = ([], [], [], [])) := by
  have hcurM : ∀ c : Collection,
      ((matchedCurrent current_repo c).packages.map Package.path).Nodup ∧
      ((matchedCurrent current_repo c).indexes.map IndexFile.path).Nodup := by
    intro c
    rw [matchedCurrent]
    cases hf : current_repo.collections.find? (fun x => x.target == c.target) with
    | none => simp [Collection.empty]
    | some cc =>
      have hmem : cc ∈ current_repo.collections := List.mem_of_find?_eq_some hf
      simpa using hcur cc hmem
  have conj2 : ∀ e, e ∈ (repo_diff repo current_repo).1 ↔
      ∃ c ∈ repo.collections, ∃ p ∈ c.packages,
        ((∀ q ∈ (matchedCurrent current_repo c).packages, q.path ≠ p.path) ∧
          e = { is_replace := false, path := p.path, hash := p.hash, size := p.size,
                local_file := Option.none }) ∨
        (∃ q ∈ (matchedCurrent current_repo c).packages, q.path = p.path ∧ q ≠ p ∧
          e = { is_replace := true, path := p.path, hash := p.hash, size := p.size,
                local_file := Option.none }) := by
    intro e
    rw [repo_diff_fst, mem_deduplicate_list]
    simp only [List.mem_flatten, List.mem_map]
    constructor
    · rintro ⟨l, ⟨c, hc, rfl⟩, hel⟩
      exact ⟨c, hc, (mem_collectionPackagesCopy current_repo c (hnew c hc) (hcurM c).1 e).mp hel⟩
    · rintro ⟨c, hc, hrest⟩
      exact ⟨collectionPackagesCopy current_repo c, ⟨c, hc, rfl⟩,
        (mem_collectionPackagesCopy current_repo c (hnew c hc) (hcurM c).1 e).mpr hrest⟩
  have conj3 : ∀ d, d ∈ (repo_diff repo current_repo).2.1 ↔
      ∃ c ∈ repo.collections, ∃ q ∈ (matchedCurrent current_repo c).packages,
        (∀ p ∈ c.packages, p.path ≠ q.path) ∧ d = { path := q.path } := by
    intro d
    rw [repo_diff_snd, mem_deduplicate_list]
    simp only [List.mem_flatten, List.mem_map]
    constructor
    · rintro ⟨l, ⟨c, hc, rfl⟩, hdl⟩
      exact ⟨c, hc, (mem_collectionPackagesDelete current_repo c (hcurM c).1 d).mp hdl⟩
    · rintro ⟨c, hc, hrest⟩
      exact ⟨collectionPackagesDelete current_repo c, ⟨c, hc, rfl⟩,
        (mem_collectionPackagesDelete current_repo c (hcurM c).1 d).mpr hrest⟩
  have conj4 : ∀ e, e ∈ (repo_diff repo current_repo).2.2.1 ↔
      ∃ c ∈ repo.collections, ∃ idx ∈ c.indexes,
        ((∀ j ∈ (matchedCurrent current_repo c).indexes, j.path ≠ idx.path) ∧
          e = { is_replace := false, path := idx.path, hash := idx.hash, size := idx.size,
                local_file := some idx.file_path }) ∨
        (∃ j ∈ (matchedCurrent current_repo c).indexes, j.path = idx.path ∧
          idx.same_content j = false ∧
          e = { is_replace := true, path := idx.path, hash := idx.hash, size := idx.size,
                local_file := some idx.file_path }) := by
    intro e
    rw [repo_diff_thd, mem_deduplicate_list]
    simp only [List.mem_flatten, List.mem_map]
    constructor
    · rintro ⟨l, ⟨c, hc, rfl⟩, hel⟩
      exact ⟨c, hc, (mem_collectionIndexesCopy current_repo c (hcurM c).2 e).mp hel⟩
    · rintro ⟨c, hc, hrest⟩
      exact ⟨collectionIndexesCopy current_repo c, ⟨c, hc, rfl⟩,
        (mem_collectionIndexesCopy current_repo c (hcurM c).2 e).mpr hrest⟩
  have conj5 : ∀ d, d ∈ (repo_diff repo current_repo).2.2.2 ↔
      ∃ c ∈ repo.collections, ∃ j ∈ (matchedCurrent current_repo c).indexes,
        (∀ idx ∈ c.indexes, idx.path ≠ j.path) ∧ d = { path := j.path } := by
    intro d
    rw [repo_diff_fth, mem_deduplicate_list]
    simp only [List.mem_flatten, List.mem_map]
    constructor
    · rintro ⟨l, ⟨c, hc, rfl⟩, hdl⟩
      exact ⟨c, hc, (mem_collectionIndexesDelete current_repo c d).mp hdl⟩
    · rintro ⟨c, hc, hrest⟩
      exact ⟨collectionIndexesDelete current_repo c, ⟨c, hc, rfl⟩,
        (mem_collectionIndexesDelete current_repo c d).mpr hrest⟩
  refine ⟨⟨?_, ?_, ?_, ?_⟩, conj2, conj3, conj4, conj5, ?_⟩
  · rw [repo_diff_fst]
    exact nodup_deduplicate_list _
  · rw [repo_diff_snd]
    exact nodup_deduplicate_list _
  · rw [repo_diff_thd]
    exact nodup_deduplicate_list _
  · rw [repo_diff_fth]
    exact nodup_deduplicate_list _
  · intro hrefl htgt
    subst hrefl
    have hmatched : ∀ c ∈ current_repo.collections, matchedCurrent current_repo c = c := by
      intro c hc
      rw [matchedCurrent, find?_target_self current_repo.collections c htgt hc]
      rfl
    have h1 : (repo_diff current_repo current_repo).1 = [] := by
      rw [List.eq_nil_iff_forall_not_mem]
      intro e he
      rcases (conj2 e).mp he with ⟨c, hc, p, hp, hcase⟩
      rw [hmatched c hc] at hcase
      rcases hcase with ⟨habsent, _⟩ | ⟨q, hq, hqpath, hqne, _⟩
      · exact habsent p hp rfl
      · exact hqne (List.inj_on_of_nodup_map (hnew c hc) hq hp hqpath)
    have h2 : (repo_diff current_repo current_repo).2.1 = [] := by
      rw [List.eq_nil_iff_forall_not_mem]
      intro d hd
      rcases (conj3 d).mp hd with ⟨c, hc, q, hq, habsent, _⟩
      rw [hmatched c hc] at hq
      exact habsent q hq rfl
    have h3 : (repo_diff current_repo current_repo).2.2.1 = [] := by
      rw [List.eq_nil_iff_forall_not_mem]
      intro e he
      rcases (conj4 e).mp he with ⟨c, hc, idx, hidx, hcase⟩
      rw [hmatched c hc] at hcase
      rcases hcase with ⟨habsent, _⟩ | ⟨j, hj, hjpath, hnsame, _⟩
      · exact habsent idx hidx rfl
      · have hji : j = idx :=
          List.inj_on_of_nodup_map ((hcur c hc).2) hj hidx hjpath
        rw [hji, same_content_refl] at hnsame
        exact absurd hnsame (by simp)
    have h4 : (repo_diff current_repo current_repo).2.2.2 = [] := by
      rw [List.eq_nil_iff_forall_not_mem]
      intro d hd
      rcases (conj5 d).mp hd with ⟨c, hc, j, hj, habsent, _⟩
      rw [hmatched c hc] at hj
      exact habsent j hj rfl
    have hsplit : repo_diff current_repo current_repo =
        ((repo_diff current_repo current_repo).1,
         (repo_diff current_repo current_repo).2.1,
         (repo_diff current_repo current_repo).2.2.1,
         (repo_diff current_repo current_repo).2.2.2) := rfl
    rw [hsplit, h1, h2, h3, h4]

/-- Witness repository for the amended C2: one collection, distinct paths. -/
def c2WitnessRepo : Repository :=
  { name := "test-ubuntu",
    collections :=
      [{ target := { release_name := "focal", architectures := ["amd64"] },
         indexes :=
           [{ file_path := "/data/R", path := "dists/focal/Release", size := 1868,
              hash := Hash.none, signature := Signature.none }],
         packages :=
           [{ name := "service-discover-agent", version := "0.1.0",
              architecture := "amd64",
              path := "pool/service-discover-agent_0.1.0_amd64.deb",
              hash := Hash.sha256 "9ed5", size := 20 }] }] }

theorem repo_diff_characterization_witness :
    repo_diff c2WitnessRepo c2WitnessRepo = ([], [], [], []) :=
  (repo_diff_characterization c2WitnessRepo c2WitnessRepo (by decide)
    (by decide)).2.2.2.2.2 rfl (by decide)

/-! ## Claim C3 -/

/-- C3: `queue_sync` sets `next_sync` to
`min(next_sync, now + min_sync_delay − (now − last_sync))` (delays configured in
minutes, converted to seconds); consequently, after `sync_completed` at `t0` (which
sets `last_sync = t0` and `next_sync = t0 + max_sync_delay`), a `queue_sync` at any
`t1 ≥ t0` leaves `next_sync ≥ t0 + min_sync_delay`, provided
`min_sync_delay ≤ max_sync_delay`. -/
theorem queue_sync_rate_limit (min_sync_delay max_sync_delay t0 t1 : Nat)
    (result : String) (st : SyncStatus) (h01 : t0 ≤ t1)
    (hdelay : min_sync_delay ≤ max_sync_delay) :
    (queue_sync min_sync_delay t1 (sync_completed max_sync_delay t0 result st)).next_sync
      = min (sync_completed max_sync_delay t0 result st).next_sync
          (t1 + min_sync_delay * 60 -
            (t1 - (sync_completed max_sync_delay t0 result st).last_sync)) ∧
    t0 + min_sync_delay * 60 ≤
      (queue_sync min_sync_delay t1 (sync_completed max_sync_delay t0 result st)).next_sync := by
  constructor
  · simp [queue_sync, sync_completed, Nat.min_comm]
  · simp only [queue_sync, sync_completed]
    omega

/-- Witness for C3: the scheduler test's configuration (`min_sync_delay = 10`,
`max_sync_delay = 30` minutes), sync completed at `t0 = 0`, queue at `t1 = 60`. -/
theorem queue_sync_rate_limit_witness :
    (queue_sync 10 60 (sync_completed 30 0 "successful"
        { next_sync := 1800, last_sync := 0, last_result := Option.none })).next_sync
      = min (sync_completed 30 0 "successful"
          { next_sync := 1800, last_sync := 0, last_result := Option.none }).next_sync
          (60 + 10 * 60 - (60 - (sync_completed 30 0 "successful"
            { next_sync := 1800, last_sync := 0, last_result := Option.none }).last_sync)) ∧
    0 + 10 * 60 ≤
      (queue_sync 10 60 (sync_completed 30 0 "successful"
        { next_sync := 1800, last_sync := 0, last_result := Option.none })).next_sync :=
  queue_sync_rate_limit 10 30 0 60 "successful"
    { next_sync := 1800, last_sync := 0, last_result := Option.none }
    (by decide) (by decide)

/-! ## Claim C9 -/

/-- C9: when `File::open(<data_path>/<repo_name>)` fails (e.g. before the first
successful sync), `load_current` returns `Ok` with the configured repository name
and an empty collections list, never an error; the result is a constant independent
of the parsers, so parsing of the saved snapshot is attempted only when the
directory opens. -/
theorem load_current_missing_dir (env : LoadEnv) (general_data_path : String)
    (repo_config : RepositoryConfig)
    (h : env.openOk (general_data_path ++ "/" ++ repo_config.name) = false) :
    load_current env general_data_path repo_config =
      Except.ok ({ name := repo_config.name, collections := [] },
                 general_data_path ++ "/" ++ repo_config.name) := by
  simp [load_current, h]

/-- Environment for the C9 witness: the data directory never opens, and the parsers
would fail loudly if they were consulted. -/
def loadEnvW : LoadEnv :=
  { openOk := fun _ => false,
    loadDebian := fun _ _ => Except.error (LoadErr.ioError "must not be called"),
    loadRedhat := fun _ _ => Except.error (LoadErr.ioError "must not be called") }

theorem load_current_missing_dir_witness :
    load_current loadEnvW "/var/lib/reposync" { name := "test-ubuntu", kind := "debian" } =
      Except.ok ({ name := "test-ubuntu", collections := [] },
                 "/var/lib/reposync" ++ "/" ++ "test-ubuntu") :=
  load_current_missing_dir loadEnvW "/var/lib/reposync"
    { name := "test-ubuntu", kind := "debian" } rfl

/-! ## Claim C10 -/

theorem retry_fetch_go_isSome {α : Type} (attempt : Nat → Except FetchError α)
    (k : Nat) : ∀ (n : Nat) (e : FetchError),
    ((retry_fetch_go attempt k n (some e)).2).isSome = true := by
  induction k with
  | zero => intro n e; simp [retry_fetch_go]
  | succ k ih =>
    intro n e
    simp only [retry_fetch_go]
    cases h : attempt n with
    | ok v => simp
    | error e2 => simpa using ih (n + 1) e2

/-- C10: `RetryFetcher::fetch` is total only for `retries ≥ 1`: with at least one
attempt the loop returns a success or the error of the final attempt (the result is
`some _`), while with `retries = 0` the loop body never runs and `err.unwrap()`
panics (modelled as `Option.none`). -/
theorem retry_fetch_totality {α : Type} (attempt : Nat → Except FetchError α) :
    (retry_fetch attempt 0).2 = Option.none ∧
    ∀ retries, 1 ≤ retries → ((retry_fetch attempt retries).2).isSome = true := by
  constructor
  · rfl
  · intro retries h
    obtain ⟨k, rfl⟩ : ∃ k, retries = k + 1 := ⟨retries - 1, by omega⟩
    simp only [retry_fetch, retry_fetch_go]
    cases h0 : attempt 0 with
    | ok v => simp
    | error e => simpa using retry_fetch_go_isSome attempt k 1 e

theorem retry_fetch_totality_witness :
    ((retry_fetch (fun _ => (Except.error { code := 500, error := "boom" } :
        Except FetchError Nat)) 1).2).isSome = true :=
  (retry_fetch_totality (fun _ => Except.error { code := 500, error := "boom" })).2 1
    (by decide)

/-! ## Claim C5 -/

theorem range_map_shift (n k : Nat) :
    (List.range (k + 1)).map (fun i => n + i) =
      n :: (List.range k).map (fun i => (n + 1) + i) := by
  rw [List.range_succ_eq_map, List.map_cons, List.map_map]
  refine congrArg₂ _ (by simp) ?_
  apply List.map_congr_left
  intro i _
  simp [Function.comp]
  omega

theorem retry_fetch_go_all_fail {α : Type} (attempt : Nat → Except FetchError α)
    (e : Nat → FetchError) :
    ∀ (k n : Nat) (err : Option FetchError), 1 ≤ k →
    (∀ i, i < k → attempt (n + i) = Except.error (e (n + i))) →
    retry_fetch_go attempt k n err =
      ((List.range k).map (fun i => n + i), some (Except.error (e (n + k - 1)))) := by
  intro k
  induction k with
  | zero => omega
  | succ k ih =>
    intro n err _ hfail
    have h0 : attempt n = Except.error (e n) := by simpa using hfail 0 (by omega)
    have hshift : ∀ i, i < k → attempt (n + 1 + i) = Except.error (e (n + 1 + i)) := by
      intro i hi
      have hs := hfail (i + 1) (by omega)
      have harith : n + (i + 1) = n + 1 + i := by omega
      rwa [harith] at hs
    simp only [retry_fetch_go, h0]
    cases k with
    | zero => simp [retry_fetch_go, List.range_succ]
    | succ m =>
      rw [ih (n + 1) (some (e n)) (by omega) hshift]
      rw [Prod.ext_iff]
      constructor
      · show n :: (List.range (m + 1)).map (fun i => (n + 1) + i) =
          (List.range (m + 1 + 1)).map (fun i => n + i)
        rw [range_map_shift n (m + 1)]
      · show some (Except.error (e (n + 1 + (m + 1) - 1))) =
          some (Except.error (e (n + (m + 1 + 1) - 1)))
        have harith : n + 1 + (m + 1) - 1 = n + (m + 1 + 1) - 1 := by omega
        rw [harith]

theorem retry_fetch_go_first_success {α : Type} (attempt : Nat → Except FetchError α)
    (e : Nat → FetchError) (v : α) :
    ∀ (j k n : Nat) (err : Option FetchError), j < k →
    (∀ i, i < j → attempt (n + i) = Except.error (e (n + i))) →
    attempt (n + j) = Except.ok v →
    retry_fetch_go attempt k n err =
      ((List.range (j + 1)).map (fun i => n + i), some (Except.ok v)) := by
  intro j
  induction j with
  | zero =>
    intro k n err hk _ hsucc
    obtain ⟨m, rfl⟩ : ∃ m, k = m + 1 := ⟨k - 1, by omega⟩
    simp only [Nat.add_zero] at hsucc
    simp [retry_fetch_go, hsucc, List.range_succ]
  | succ j ih =>
    intro k n err hk hfail hsucc
    obtain ⟨m, rfl⟩ : ∃ m, k = m + 1 := ⟨k - 1, by omega⟩
    have h0 : attempt n = Except.error (e n) := by simpa using hfail 0 (by omega)
    have hshift : ∀ i, i < j → attempt (n + 1 + i) = Except.error (e (n + 1 + i)) := by
      intro i hi
      have hs := hfail (i + 1) (by omega)
      have harith : n + (i + 1) = n + 1 + i := by omega
      rwa [harith] at hs
    have hsucc' : attempt (n + 1 + j) = Except.ok v := by
      have harith : n + (j + 1) = n + 1 + j := by omega
      rwa [harith] at hsucc
    simp only [retry_fetch_go, h0]
    rw [ih m (n + 1) (some (e n)) (by omega) hshift hsucc']
    rw [Prod.ext_iff]
    constructor
    · show n :: (List.range (j + 1)).map (fun i => (n + 1) + i) =
        (List.range (j + 1 + 1)).map (fun i => n + i)
      rw [range_map_shift n (j + 1)]
    · rfl

/-- Claim C5 states a 404 error is terminal (no further retry). Counterexample: a
wrapped fetcher that always fails with code 404 is attempted the full three times
(`[0, 1, 2]`) when `max_retries = 3`, and the last 404 error is returned — the
`RetryFetcher::fetch` loop in `src/fetcher.rs` has no 404 special case. -/
theorem retry_fetch_404_retried_counterexample :
    retry_fetch (fun _ => (Except.error { code := 404, error := "Request failed" } :
        Except FetchError Nat)) 3
      = ([0, 1, 2], some (Except.error { code := 404, error := "Request failed" })) := by
  rfl

/-- C5 (amended): `RetryFetcher::fetch` attempts the wrapped fetcher up to
`max_retries` times (sleeping `retry_sleep` before every attempt after the first —
real time is not modelled), retrying **every** error including 404; if all attempts
fail it returns the error of the last attempt, and a first success at attempt `j`
is returned after `j + 1` attempts. Requires `max_retries ≥ 1` (see C10). -/
theorem retry_fetch_characterization {α : Type} (attempt : Nat → Except FetchError α)
    (e : Nat → FetchError) (retries : Nat) (h1 : 1 ≤ retries) :
    ((∀ i, i < retries → attempt i = Except.error (e i)) →
      retry_fetch attempt retries =
        (List.range retries, some (Except.error (e (retries - 1))))) ∧
    (∀ j v, j < retries → (∀ i, i < j → attempt i = Except.error (e i)) →
      attempt j = Except.ok v →
      retry_fetch attempt retries =
        ((List.range (j + 1)).map (fun i => i), some (Except.ok v))) := by
  constructor
  · intro hfail
    rw [retry_fetch, retry_fetch_go_all_fail attempt e retries 0 Option.none h1
      (by simpa using hfail)]
    simp
  · intro j v hj hfail hsucc
    rw [retry_fetch, retry_fetch_go_first_success attempt e v j retries 0 Option.none hj
      (by simpa using hfail) (by simpa using hsucc)]
    simp

theorem retry_fetch_characterization_witness :
    retry_fetch (fun _ => (Except.error { code := 404, error := "Request failed" } :
        Except FetchError Nat)) 3
      = (List.range 3, some (Except.error
          ((fun _ => ({ code := 404, error := "Request failed" } : FetchError)) (3 - 1)))) :=
  (retry_fetch_characterization
    (fun _ => Except.error { code := 404, error := "Request failed" })
    (fun _ => { code := 404, error := "Request failed" }) 3 (by decide)).1
    (fun i _ => rfl)

/-! ## Claim C6 -/

/-- Claim C6 states `Hash` equality and `Hash::matches` compare the hex digest
case-insensitively. Counterexample: `"AB"` and `"ab"` are case-insensitively equal
hex digests, yet the derived equality distinguishes `Sha1("AB")` from `Sha1("ab")`,
and `matches` on a stored uppercase `"AB"` returns `false` for a stream whose
digest (here the identity digest — the code is generic over the hasher) encodes to
`"ab"`: `HEXLOWER_PERMISSIVE.encode` output is compared with plain `==`. -/
theorem hash_eq_case_sensitive_counterexample :
    hexEqCaseInsensitive "AB" "ab" = true ∧
    Hash.sha1 "AB" ≠ Hash.sha1 "ab" ∧
    Hash.matches (fun l => l) (fun l => l) (Hash.sha1 "AB") [171] = false ∧
    hexlowerEncode ((fun l : List Nat => l) [171]) = "ab" := by
  refine ⟨by decide, by decide, by decide, by decide⟩

/-- C6 (amended): `Hash` equality is the derived structural (case-sensitive)
equality on tag and hex, and `Hash.matches` returns true iff the **lowercase** hex
encoding of the digest of the complete stream (per the tag's digest function) is
exactly equal to the stored hex; a `None` hash always verifies as true. -/
theorem hash_matches_characterization (sha1f sha256f : List Nat → List Nat)
    (h : Hash) (stream : List Nat) (x y : String) :
    (Hash.matches sha1f sha256f h stream = true ↔
      (match h with
       | Hash.sha1 hex => hexlowerEncode (sha1f stream) = hex
       | Hash.sha256 hex => hexlowerEncode (sha256f stream) = hex
       | Hash.none => True)) ∧
    (Hash.sha1 x = Hash.sha1 y ↔ x = y) ∧
    (Hash.sha256 x = Hash.sha256 y ↔ x = y) ∧
    (Hash.sha1 x ≠ Hash.sha256 y ∧ Hash.sha1 x ≠ Hash.none ∧ Hash.sha256 y ≠ Hash.none) := by
  refine ⟨?_, by simp, by simp, by simp, by simp, by simp⟩
  cases h <;> simp [Hash.matches, Hash.verify]

/-! ## Claim C7 -/

/-- Claim C7 states `is_repo_syncing` returns false for a repository on which no
sync-lock acquisition was ever attempted. Counterexample: the fresh (empty)
`sync_locks` map has no entry for the repo, and `is_repo_syncing` returns **true**
(the missing-entry branch of `Lock::is_repo_syncing` yields `true`). -/
theorem is_repo_syncing_missing_entry_counterexample :
    is_repo_syncing [] "test-ubuntu" = true ∧
    btGet? ([] : List (String × Bool)) "test-ubuntu" = Option.none := by
  refine ⟨by decide, by decide⟩

/-- C7 (amended): `is_repo_syncing` returns true iff the repo's sync flag is set
**or** the repo has no entry in the map; in particular it returns `true`, not
false, for a repository on which no acquisition was ever attempted, and it returns
false after the last holder of an existing entry released the lock. -/
theorem is_repo_syncing_characterization (sync_locks : List (String × Bool))
    (repo_name : String) :
    (is_repo_syncing sync_locks repo_name = true ↔
      (btGet? sync_locks repo_name = some true ∨
        btGet? sync_locks repo_name = Option.none)) ∧
    (∀ m : List (String × Bool),
      is_repo_syncing (release_lock m repo_name) repo_name = false) := by
  constructor
  · rw [is_repo_syncing]
    cases hg : btGet? sync_locks repo_name with
    | none => simp
    | some b => cases b <;> simp
  · intro m
    rw [is_repo_syncing, release_lock, btGet?_insert_self]
    rfl

/-! ## Claim C4 -/

theorem debianCollections_anchor (env : MetaEnv) (allow_empty : Bool) :
    ∀ (versions : List String) (cs : List Collection),
      debianCollections env allow_empty versions = Except.ok cs →
      ∀ c ∈ cs, (c.indexes.head?).map IndexFile.path =
        some ("dists/" ++ c.target.release_name ++ "/Release") := by
  intro versions
  induction versions with
  | nil =>
    intro cs h c hc
    simp only [debianCollections] at h
    injection h with h
    subst h
    simp at hc
  | cons v rest ih =>
    intro cs h c hc
    simp only [debianCollections] at h
    split at h
    · split at h
      · exact ih cs h c hc
      · exact Except.noConfusion h
    · next disk_path content size hfetch =>
      split at h
      · exact Except.noConfusion h
      · next release hrel =>
        split at h
        · exact Except.noConfusion h
        · next indexes1 sig1 haoi1 =>
          split at h
          · exact Except.noConfusion h
          · next indexes2 sigContent haoi2 =>
            split at h
            · exact Except.noConfusion h
            · next fetchedIndexes packages hpri =>
              split at h
              · exact Except.noConfusion h
              · next restCs heqrest =>
                injection h with h
                subst h
                rcases List.mem_cons.mp hc with hc' | hc'
                · subst hc'
                  cases sigContent <;> simp
                · exact ih _ heqrest c hc'

theorem add_optional_index_cases (env : MetaEnv) (path : String)
    (indexes : List IndexFile) (signature : Signature) :
    (∃ err, env.fetch path = Except.error err ∧ err.isNotFound = true ∧
      add_optional_index env path indexes signature = Except.ok (indexes, Option.none)) ∨
    (∃ err, env.fetch path = Except.error err ∧ err.isNotFound = false ∧
      add_optional_index env path indexes signature = Except.error err) ∨
    (∃ disk_path content size c, env.fetch path = Except.ok (disk_path, content, size) ∧
      env.readBack path = some c ∧
      add_optional_index env path indexes signature = Except.ok
        ({ file_path := disk_path, path := path, size := size,
           hash := Hash.create_sha256_hash env.sha256digest content,
           signature := signature } :: indexes, some c)) ∨
    (∃ disk_path content size, env.fetch path = Except.ok (disk_path, content, size) ∧
      env.readBack path = Option.none ∧
      add_optional_index env path indexes signature =
        Except.error (StoreErr.panicked "read of optional index failed")) := by
  cases hfetch : env.fetch path with
  | error err =>
    cases hnf : err.isNotFound with
    | true =>
      left
      exact ⟨err, rfl, hnf, by simp [add_optional_index, hfetch, hnf]⟩
    | false =>
      right; left
      exact ⟨err, rfl, hnf, by simp [add_optional_index, hfetch, hnf]⟩
  | ok triple =>
    obtain ⟨disk_path, content, size⟩ := triple
    cases hrb : env.readBack path with
    | some cnt =>
      right; right; left
      exact ⟨disk_path, content, size, cnt, rfl, rfl,
        by simp [add_optional_index, hfetch, hrb]⟩
    | none =>
      right; right; right
      exact ⟨disk_path, content, size, rfl, rfl,
        by simp [add_optional_index, hfetch, hrb]⟩

theorem redhat_anchor (env : MetaEnv) (config_name : String) (repo : Repository)
    (h : redhat_fetch_repository_internal env config_name = Except.ok repo) :
    ∀ collection ∈ repo.collections,
      (match env.fetch ("repodata/repomd.xml" ++ ".asc") with
       | Except.error _ =>
         (collection.indexes.head?).map IndexFile.path = some "repodata/repomd.xml"
       | Except.ok _ =>
         (collection.indexes.map IndexFile.path).take 2 =
           ["repodata/repomd.xml.asc", "repodata/repomd.xml"]) := by
  intro collection hc
  cases hfetchmd : env.fetch "repodata/repomd.xml" with
  | error err =>
    rw [redhat_fetch_repository_internal, hfetchmd] at h
    exact Except.noConfusion h
  | ok triple =>
    obtain ⟨disk_path, content, size⟩ := triple
    cases hpr : env.parseRepomd content with
    | error e =>
      rw [redhat_fetch_repository_internal, hfetchmd] at h
      simp only [hpr] at h
      exact Except.noConfusion h
    | ok entries =>
      cases hentries : processRepomdEntries env entries with
      | error e =>
        rcases add_optional_index_cases env ("repodata/repomd.xml" ++ ".asc") []
            Signature.none with
          ⟨err, hfetch, _, haoi2⟩ | ⟨err, hfetch, _, haoi2⟩ |
          ⟨dp, ct, sz, cnt, hfetch, _, haoi2⟩ | ⟨dp, ct, sz, hfetch, _, haoi2⟩ <;>
          rw [redhat_fetch_repository_internal, hfetchmd] at h <;>
          simp only [hpr, haoi2, hentries] at h <;>
          exact Except.noConfusion h
      | ok pair =>
        obtain ⟨entryIndexes, packages⟩ := pair
        rcases add_optional_index_cases env ("repodata/repomd.xml" ++ ".asc") []
            Signature.none with
          ⟨err, hfetch, _, haoi2⟩ | ⟨err, hfetch, _, haoi2⟩ |
          ⟨dp, ct, sz, cnt, hfetch, _, haoi2⟩ | ⟨dp, ct, sz, hfetch, _, haoi2⟩
        · rw [redhat_fetch_repository_internal, hfetchmd] at h
          simp only [hpr, haoi2, hentries] at h
          rw [hfetch]
          injection h with h
          subst h
          simp only [Repository.collections, List.mem_singleton] at hc
          subst hc
          simp
        · rw [redhat_fetch_repository_internal, hfetchmd] at h
          simp only [hpr, haoi2, hentries] at h
          exact Except.noConfusion h
        · rw [redhat_fetch_repository_internal, hfetchmd] at h
          simp only [hpr, haoi2, hentries] at h
          rw [hfetch]
          injection h with h
          subst h
          simp only [Repository.collections, List.mem_singleton] at hc
          subst hc
          simp
        · rw [redhat_fetch_repository_internal, hfetchmd] at h
          simp only [hpr, haoi2, hentries] at h
          exact Except.noConfusion h

/-- C4 (amended): for every repository produced by the Debian
`fetch_repository_internal`, every collection's index 0 is the `Release` anchor; for
the Red Hat `fetch_repository_internal`, `repomd.xml` is at index 0 **only when**
`repodata/repomd.xml.asc` is absent upstream — when the `.asc` exists,
`add_optional_index` has inserted it at position 0 and the `repomd.xml` anchor is
pushed to position 1. -/
theorem anchor_index_position (env : MetaEnv) (config_name : String)
    (versions : List String) (allow_empty : Bool) (repoD repoR : Repository) :
    (debian_fetch_repository_internal env config_name versions allow_empty =
        Except.ok repoD →
      ∀ collection ∈ repoD.collections,
        (collection.indexes.head?).map IndexFile.path =
          some ("dists/" ++ collection.target.release_name ++ "/Release")) ∧
    (redhat_fetch_repository_internal env config_name = Except.ok repoR →
      ∀ collection ∈ repoR.collections,
        (match env.fetch ("repodata/repomd.xml" ++ ".asc") with
         | Except.error _ =>
           (collection.indexes.head?).map IndexFile.path = some "repodata/repomd.xml"
         | Except.ok _ =>
           (collection.indexes.map IndexFile.path).take 2 =
             ["repodata/repomd.xml.asc", "repodata/repomd.xml"])) := by
  constructor
  · intro h collection hc
    rw [debian_fetch_repository_internal] at h
    cases hcs : debianCollections env allow_empty versions with
    | error e =>
      rw [hcs] at h
      exact Except.noConfusion h
    | ok cs =>
      rw [hcs] at h
      injection h with h
      subst h
      exact debianCollections_anchor env allow_empty versions cs hcs collection hc
  · intro h
    exact redhat_anchor env config_name repoR h

/-- Metadata environment of the C4 counterexample: `repomd.xml` and its detached
signature `repomd.xml.asc` both exist upstream; the repomd file lists no entries. -/
def metaEnvC4 : MetaEnv :=
  { fetch := fun p =>
      if p = "repodata/repomd.xml" then Except.ok ("/tmp/A", "<repomd/>", 5)
      else if p = "repodata/repomd.xml.asc" then Except.ok ("/tmp/B", "SIG", 3)
      else Except.error (StoreErr.notFound "nf"),
    readBack := fun _ => some "SIG",
    sha256digest := fun _ => [],
    parseRelease := fun _ _ => Except.error (StoreErr.other "unused"),
    parsePackagesDeb := fun _ => Except.error (StoreErr.other "unused"),
    parseRepomd := fun _ => Except.ok [],
    parsePackagesRh := fun _ => Except.error (StoreErr.other "unused"),
    gunzip := fun s => s }

/-- Claim C4 states the top-level anchor (`repomd.xml` for Red Hat) is at position 0
of `collection.indexes`. Counterexample: with `repomd.xml.asc` present upstream, the
fetch succeeds and the collection's indexes place the `.asc` at position 0 and
`repomd.xml` at position 1. -/
theorem redhat_anchor_position_counterexample :
    redhat_fetch_repository_internal metaEnvC4 "centos" = Except.ok
      { name := "centos",
        collections :=
          [{ target := { release_name := "", architectures := [] },
             indexes :=
               [{ file_path := "/tmp/B", path := "repodata/repomd.xml.asc", size := 3,
                  hash := Hash.sha256 "", signature := Signature.none },
                { file_path := "/tmp/A", path := "repodata/repomd.xml", size := 5,
                  hash := Hash.none, signature := Signature.pgpExternal "SIG" }],
             packages := [] }] } := by
  rfl

/-- Witness for the amended C4: same environment but without the `.asc`; the anchor
is then at position 0. -/
def metaEnvC4W : MetaEnv :=
  { fetch := fun p =>
      if p = "repodata/repomd.xml" then Except.ok ("/tmp/A", "<repomd/>", 5)
      else Except.error (StoreErr.notFound "nf"),
    readBack := fun _ => some "SIG",
    sha256digest := fun _ => [],
    parseRelease := fun _ _ => Except.error (StoreErr.other "unused"),
    parsePackagesDeb := fun _ => Except.error (StoreErr.other "unused"),
    parseRepomd := fun _ => Except.ok [],
    parsePackagesRh := fun _ => Except.error (StoreErr.other "unused"),
    gunzip := fun s => s }

def c4WitnessCollection : Collection :=
  { target := { release_name := "", architectures := [] },
    indexes :=
      [{ file_path := "/tmp/A", path := "repodata/repomd.xml", size := 5,
         hash := Hash.none, signature := Signature.none }],
    packages := [] }

def c4WitnessRepo : Repository :=
  { name := "centos", collections := [c4WitnessCollection] }

theorem anchor_index_position_witness :
    (c4WitnessCollection.indexes.head?).map IndexFile.path =
      some "repodata/repomd.xml" := by
  have hmain := (anchor_index_position metaEnvC4W "centos" [] false
      { name := "centos", collections := [] } c4WitnessRepo).2 (by rfl)
      c4WitnessCollection (by simp [c4WitnessRepo])
  have hasc : metaEnvC4W.fetch ("repodata/repomd.xml" ++ ".asc") =
      Except.error (StoreErr.notFound "nf") := by rfl
  rw [hasc] at hmain
  exact hmain

/-! ## Claim C1 -/

/-- Position of an event's operation in the protocol order stated by the claim:
package uploads, then index uploads, then the invalidation, then deletes, then the
swap. -/
def eventRank : Event → Nat
  | Event.upload Phase.pkg _ => 0
  | Event.upload Phase.idx _ => 1
  | Event.invalidate _ => 2
  | Event.delete _ => 3
  | Event.swap => 4

/-- Is the event a CDN invalidation call? -/
def isInvalidateEv : Event → Bool
  | Event.invalidate _ => true
  | _ => false

theorem copyOne_events (env : SyncEnv) (phase : Phase) (source_endpoint : String)
    (operation : CopyOperation) :
    ∀ ev ∈ (copyOne env phase source_endpoint operation).1,
      ev = Event.upload phase operation.path := by
  intro ev hev
  rw [copyOne] at hev
  split at hev
  · simp at hev
  · split at hev
    · simp at hev
    · split at hev
      · simp at hev
      · split at hev
        · split at hev
          · simpa using hev
          · simp at hev
        · split at hev
          · simpa using hev
          · simp at hev

theorem copyList_events (env : SyncEnv) (phase : Phase) (source_endpoint : String) :
    ∀ (ops : List CopyOperation),
      ∀ ev ∈ (copyList env phase source_endpoint ops).1,
        ∃ p, ev = Event.upload phase p := by
  intro ops
  induction ops with
  | nil =>
    intro ev hev
    simp [copyList] at hev
  | cons op rest ih =>
    intro ev hev
    rw [copyList] at hev
    split at hev
    · next evs e heq =>
      have hfst : (copyOne env phase source_endpoint op).1 = evs :=
        congrArg Prod.fst heq
      refine ⟨op.path, ?_⟩
      exact copyOne_events env phase source_endpoint op ev (by rw [hfst]; exact hev)
    · next evs inv heq =>
      have hfst : (copyOne env phase source_endpoint op).1 = evs :=
        congrArg Prod.fst heq
      split at hev
      · next evs2 e2 heq2 =>
        have hfst2 : (copyList env phase source_endpoint rest).1 = evs2 :=
          congrArg Prod.fst heq2
        rcases List.mem_append.mp hev with hc | hc
        · exact ⟨op.path,
            copyOne_events env phase source_endpoint op ev (by rw [hfst]; exact hc)⟩
        · exact ih ev (by rw [hfst2]; exact hc)
      · next evs2 inv2 heq2 =>
        have hfst2 : (copyList env phase source_endpoint rest).1 = evs2 :=
          congrArg Prod.fst heq2
        rcases List.mem_append.mp hev with hc | hc
        · exact ⟨op.path,
            copyOne_events env phase source_endpoint op ev (by rw [hfst]; exact hc)⟩
        · exact ih ev (by rw [hfst2]; exact hc)

theorem deleteList_events (env : SyncEnv) :
    ∀ (ops : List DeleteOperation),
      ∀ ev ∈ (deleteList env ops).1, ∃ p, ev = Event.delete p := by
  intro ops
  induction ops with
  | nil =>
    intro ev hev
    simp [deleteList] at hev
  | cons op rest ih =>
    intro ev hev
    rw [deleteList] at hev
    split at hev
    · split at hev
      next evs r heq =>
        have hfst : (deleteList env rest).1 = evs := congrArg Prod.fst heq
        rcases List.mem_cons.mp hev with hc | hc
        · exact ⟨op.path, hc⟩
        · exact ih ev (by rw [hfst]; exact hc)
    · simp at hev

theorem pairwise_rank_of_const (l : List Event) (c : Nat)
    (h : ∀ ev ∈ l, eventRank ev = c) :
    l.Pairwise (fun a b => eventRank a ≤ eventRank b) := by
  induction l with
  | nil => simp
  | cons x xs ih =>
    rw [List.pairwise_cons]
    refine ⟨?_, ih (fun ev hev => h ev (List.mem_cons_of_mem _ hev))⟩
    intro b hb
    rw [h x (by simp), h b (List.mem_cons_of_mem _ hb)]

theorem pairwise_rank_append (l1 l2 : List Event) (c : Nat)
    (h1 : ∀ ev ∈ l1, eventRank ev ≤ c) (h2 : ∀ ev ∈ l2, c ≤ eventRank ev)
    (p1 : l1.Pairwise (fun a b => eventRank a ≤ eventRank b))
    (p2 : l2.Pairwise (fun a b => eventRank a ≤ eventRank b)) :
    (l1 ++ l2).Pairwise (fun a b => eventRank a ≤ eventRank b) := by
  rw [List.pairwise_append]
  exact ⟨p1, p2, fun a ha b hb => le_trans (h1 a ha) (h2 b hb)⟩

theorem countP_invalidate_zero (l : List Event) (c : Nat) (hc : c ≠ 2)
    (h : ∀ ev ∈ l, eventRank ev = c) : l.countP isInvalidateEv = 0 := by
  rw [List.countP_eq_zero]
  intro ev hev
  have hr := h ev hev
  cases ev with
  | upload phase p => simp [isInvalidateEv]
  | invalidate paths =>
    exfalso
    apply hc
    rw [← hr]
    rfl
  | delete p => simp [isInvalidateEv]
  | swap => simp [isInvalidateEv]

theorem swap_not_mem_of_rank (l : List Event) (c : Nat) (hc : c ≠ 4)
    (h : ∀ ev ∈ l, eventRank ev = c) : Event.swap ∉ l := by
  intro hmem
  apply hc
  rw [← h Event.swap hmem]
  rfl

theorem rank_ub_of_const {l : List Event} {c d : Nat}
    (h : ∀ ev ∈ l, eventRank ev = c) (hcd : c ≤ d) : ∀ ev ∈ l, eventRank ev ≤ d :=
  fun ev hev => (h ev hev) ▸ hcd

theorem rank_ub_append {l1 l2 : List Event} {c : Nat}
    (h1 : ∀ ev ∈ l1, eventRank ev ≤ c) (h2 : ∀ ev ∈ l2, eventRank ev ≤ c) :
    ∀ ev ∈ l1 ++ l2, eventRank ev ≤ c := by
  intro ev hev
  rcases List.mem_append.mp hev with hc | hc
  exacts [h1 ev hc, h2 ev hc]

theorem rank_ub_mono {l : List Event} {c d : Nat}
    (h : ∀ ev ∈ l, eventRank ev ≤ c) (hcd : c ≤ d) : ∀ ev ∈ l, eventRank ev ≤ d :=
  fun ev hev => le_trans (h ev hev) hcd

theorem swap_not_mem_append {l1 l2 : List Event}
    (h1 : Event.swap ∉ l1) (h2 : Event.swap ∉ l2) : Event.swap ∉ l1 ++ l2 := by
  intro hmem
  rcases List.mem_append.mp hmem with hc | hc
  exacts [h1 hc, h2 hc]

/-- C1: in every trace of the apply phase, event ranks are monotone along the
trace — so every package upload strictly precedes every index upload, every upload
precedes the invalidation, the invalidation precedes every delete and every delete
precedes the swap; the CDN invalidation call happens at most once; and when any
step returns an error no swap is performed. -/
theorem sync_apply_ordering (env : SyncEnv) (source_endpoint : String)
    (repo current_repo : Repository) :
    ((sync_repo_apply env source_endpoint repo current_repo).1).Pairwise
        (fun a b => eventRank a ≤ eventRank b) ∧
    ((sync_repo_apply env source_endpoint repo current_repo).1).countP isInvalidateEv ≤ 1 ∧
    (∀ e, (sync_repo_apply env source_endpoint repo current_repo).2 = Except.error e →
      Event.swap ∉ (sync_repo_apply env source_endpoint repo current_repo).1) := by
  have hP : ∀ ev ∈ (copyList env Phase.pkg source_endpoint
      (repo_diff repo current_repo).1).1, eventRank ev = 0 := by
    intro ev hev
    rcases copyList_events env Phase.pkg source_endpoint _ ev hev with ⟨p, rfl⟩
    rfl
  have hI : ∀ ev ∈ (copyList env Phase.idx source_endpoint
      (repo_diff repo current_repo).2.2.1).1, eventRank ev = 1 := by
    intro ev hev
    rcases copyList_events env Phase.idx source_endpoint _ ev hev with ⟨p, rfl⟩
    rfl
  have hD1 : ∀ ev ∈ (deleteList env (repo_diff repo current_repo).2.1).1,
      eventRank ev = 3 := by
    intro ev hev
    rcases deleteList_events env _ ev hev with ⟨p, rfl⟩
    rfl
  have hD2 : ∀ ev ∈ (deleteList env (repo_diff repo current_repo).2.2.2).1,
      eventRank ev = 3 := by
    intro ev hev
    rcases deleteList_events env _ ev hev with ⟨p, rfl⟩
    rfl
  simp only [sync_repo_apply]
  split
  · refine ⟨by simp, by simp, ?_⟩
    intro e he
    exact Except.noConfusion he
  · split
    · next evP e heq =>
      have hPf : ∀ ev ∈ evP, eventRank ev = 0 := by
        intro ev hev
        exact hP ev ((congrArg Prod.fst heq).symm ▸ hev)
      refine ⟨pairwise_rank_of_const evP 0 hPf, ?_, ?_⟩
      · rw [countP_invalidate_zero evP 0 (by omega) hPf]
        omega
      · intro e' _
        exact swap_not_mem_of_rank evP 0 (by omega) hPf
    · next evP invP heqP =>
      have hPf : ∀ ev ∈ evP, eventRank ev = 0 := by
        intro ev hev
        exact hP ev ((congrArg Prod.fst heqP).symm ▸ hev)
      split
      · next evI e heq =>
        have hIf : ∀ ev ∈ evI, eventRank ev = 1 := by
          intro ev hev
          exact hI ev ((congrArg Prod.fst heq).symm ▸ hev)
        refine ⟨?_, ?_, ?_⟩
        · exact pairwise_rank_append evP evI 1 (rank_ub_of_const hPf (by omega))
            (fun ev hev => by simp [hIf ev hev])
            (pairwise_rank_of_const evP 0 hPf) (pairwise_rank_of_const evI 1 hIf)
        · rw [List.countP_append, countP_invalidate_zero evP 0 (by omega) hPf,
            countP_invalidate_zero evI 1 (by omega) hIf]
          omega
        · intro e' _
          exact swap_not_mem_append (swap_not_mem_of_rank evP 0 (by omega) hPf)
            (swap_not_mem_of_rank evI 1 (by omega) hIf)
      · next evI invI heqI =>
        have hIf : ∀ ev ∈ evI, eventRank ev = 1 := by
          intro ev hev
          exact hI ev ((congrArg Prod.fst heqI).symm ▸ hev)
        have hPIpw : (evP ++ evI).Pairwise (fun a b => eventRank a ≤ eventRank b) :=
          pairwise_rank_append evP evI 1 (rank_ub_of_const hPf (by omega))
            (fun ev hev => by simp [hIf ev hev])
            (pairwise_rank_of_const evP 0 hPf) (pairwise_rank_of_const evI 1 hIf)
        have hPIub : ∀ ev ∈ evP ++ evI, eventRank ev ≤ 1 :=
          rank_ub_append (rank_ub_of_const hPf (by omega))
            (rank_ub_of_const hIf (by omega))
        have hPIcount : (evP ++ evI).countP isInvalidateEv = 0 := by
          rw [List.countP_append, countP_invalidate_zero evP 0 (by omega) hPf,
            countP_invalidate_zero evI 1 (by omega) hIf]
        have hPIswap : Event.swap ∉ evP ++ evI :=
          swap_not_mem_append (swap_not_mem_of_rank evP 0 (by omega) hPf)
            (swap_not_mem_of_rank evI 1 (by omega) hIf)
        split
        · next hinv =>
          have hInvf : ∀ ev ∈ [Event.invalidate (invP ++ invI)], eventRank ev = 2 := by
            intro ev hev
            rw [List.mem_singleton] at hev
            subst hev
            rfl
          have hPIVpw : ((evP ++ evI) ++ [Event.invalidate (invP ++ invI)]).Pairwise
              (fun a b => eventRank a ≤ eventRank b) :=
            pairwise_rank_append _ _ 2 (rank_ub_mono hPIub (by omega))
              (fun ev hev => by simp [hInvf ev hev]) hPIpw
              (pairwise_rank_of_const _ 2 hInvf)
          have hPIVub : ∀ ev ∈ (evP ++ evI) ++ [Event.invalidate (invP ++ invI)],
              eventRank ev ≤ 2 :=
            rank_ub_append (rank_ub_mono hPIub (by omega))
              (rank_ub_of_const hInvf (by omega))
          have hPIVcount : ((evP ++ evI) ++
              [Event.invalidate (invP ++ invI)]).countP isInvalidateEv = 1 := by
            rw [List.countP_append, hPIcount]
            rfl
          have hPIVswap : Event.swap ∉ (evP ++ evI) ++ [Event.invalidate (invP ++ invI)] :=
            swap_not_mem_append hPIswap
              (swap_not_mem_of_rank _ 2 (by omega) hInvf)
          split
          · next evD1 e heq =>
            have hD1f : ∀ ev ∈ evD1, eventRank ev = 3 := by
              intro ev hev
              exact hD1 ev ((congrArg Prod.fst heq).symm ▸ hev)
            refine ⟨?_, ?_, ?_⟩
            · exact pairwise_rank_append _ evD1 3 (rank_ub_mono hPIVub (by omega))
                (fun ev hev => by simp [hD1f ev hev]) hPIVpw
                (pairwise_rank_of_const evD1 3 hD1f)
            · rw [List.countP_append, hPIVcount,
                countP_invalidate_zero evD1 3 (by omega) hD1f]
            · intro e' _
              exact swap_not_mem_append hPIVswap
                (swap_not_mem_of_rank evD1 3 (by omega) hD1f)
          · next evD1 heq =>
            have hD1f : ∀ ev ∈ evD1, eventRank ev = 3 := by
              intro ev hev
              exact hD1 ev ((congrArg Prod.fst heq).symm ▸ hev)
            have hVD1pw : (((evP ++ evI) ++ [Event.invalidate (invP ++ invI)]) ++
                evD1).Pairwise (fun a b => eventRank a ≤ eventRank b) :=
              pairwise_rank_append _ evD1 3 (rank_ub_mono hPIVub (by omega))
                (fun ev hev => by simp [hD1f ev hev]) hPIVpw
                (pairwise_rank_of_const evD1 3 hD1f)
            have hVD1ub : ∀ ev ∈ ((evP ++ evI) ++ [Event.invalidate (invP ++ invI)]) ++
                evD1, eventRank ev ≤ 3 :=
              rank_ub_append (rank_ub_mono hPIVub (by omega))
                (rank_ub_of_const hD1f (by omega))
            have hVD1count : (((evP ++ evI) ++ [Event.invalidate (invP ++ invI)]) ++
                evD1).countP isInvalidateEv = 1 := by
              rw [List.countP_append, hPIVcount,
                countP_invalidate_zero evD1 3 (by omega) hD1f]
            have hVD1swap : Event.swap ∉ ((evP ++ evI) ++
                [Event.invalidate (invP ++ invI)]) ++ evD1 :=
              swap_not_mem_append hPIVswap
                (swap_not_mem_of_rank evD1 3 (by omega) hD1f)
            split
            · next evD2 e heq2 =>
              have hD2f : ∀ ev ∈ evD2, eventRank ev = 3 := by
                intro ev hev
                exact hD2 ev ((congrArg Prod.fst heq2).symm ▸ hev)
              refine ⟨?_, ?_, ?_⟩
              · exact pairwise_rank_append _ evD2 3 hVD1ub
                  (fun ev hev => by simp [hD2f ev hev]) hVD1pw
                  (pairwise_rank_of_const evD2 3 hD2f)
              · rw [List.countP_append, hVD1count,
                  countP_invalidate_zero evD2 3 (by omega) hD2f]
              · intro e' _
                exact swap_not_mem_append hVD1swap
                  (swap_not_mem_of_rank evD2 3 (by omega) hD2f)
            · next evD2 heq2 =>
              have hD2f : ∀ ev ∈ evD2, eventRank ev = 3 := by
                intro ev hev
                exact hD2 ev ((congrArg Prod.fst heq2).symm ▸ hev)
              have hVD2pw : ((((evP ++ evI) ++ [Event.invalidate (invP ++ invI)]) ++
                  evD1) ++ evD2).Pairwise (fun a b => eventRank a ≤ eventRank b) :=
                pairwise_rank_append _ evD2 3 hVD1ub
                  (fun ev hev => by simp [hD2f ev hev]) hVD1pw
                  (pairwise_rank_of_const evD2 3 hD2f)
              have hVD2ub : ∀ ev ∈ (((evP ++ evI) ++
                  [Event.invalidate (invP ++ invI)]) ++ evD1) ++ evD2,
                  eventRank ev ≤ 3 :=
                rank_ub_append hVD1ub (rank_ub_of_const hD2f (by omega))
              have hVD2count : ((((evP ++ evI) ++
                  [Event.invalidate (invP ++ invI)]) ++ evD1) ++ evD2).countP
                  isInvalidateEv = 1 := by
                rw [List.countP_append, hVD1count,
                  countP_invalidate_zero evD2 3 (by omega) hD2f]
              have hVD2swap : Event.swap ∉ (((evP ++ evI) ++
                  [Event.invalidate (invP ++ invI)]) ++ evD1) ++ evD2 :=
                swap_not_mem_append hVD1swap
                  (swap_not_mem_of_rank evD2 3 (by omega) hD2f)
              split
              · next hswap =>
                have hSf : ∀ ev ∈ [Event.swap], eventRank ev = 4 := by
                  intro ev hev
                  rw [List.mem_singleton] at hev
                  subst hev
                  rfl
                refine ⟨?_, ?_, ?_⟩
                · exact pairwise_rank_append _ [Event.swap] 4
                    (rank_ub_mono hVD2ub (by omega))
                    (fun ev hev => by simp [hSf ev hev]) hVD2pw
                    (pairwise_rank_of_const _ 4 hSf)
                · rw [List.countP_append, hVD2count,
                    countP_invalidate_zero [Event.swap] 4 (by omega) hSf]
                · intro e' he'
                  exact Except.noConfusion he'
              · next hswap =>
                refine ⟨hVD2pw, ?_, ?_⟩
                · show ((((evP ++ evI) ++ [Event.invalidate (invP ++ invI)]) ++ evD1)
                    ++ evD2).countP isInvalidateEv ≤ 1
                  rw [hVD2count]
                · intro e' _
                  exact hVD2swap
        · next hinv =>
          refine ⟨hPIpw, ?_, ?_⟩
          · show (evP ++ evI).countP isInvalidateEv ≤ 1
            rw [hPIcount]
            omega
          · intro e' _
            exact hPIswap

/-- Environment for the C1 witness: the upload of every path fails, forcing an
error result, on repositories with a non-empty copy plan. -/
def syncEnvErr : SyncEnv :=
  { openLocal := fun _ => Except.error "unused",
    fetchUrl := fun _ => Except.ok [],
    uploadOk := fun _ => false,
    invalidateOk := true,
    deleteOk := fun _ => true,
    swapOk := true,
    sha1 := fun _ => [],
    sha256 := fun _ => [] }

/-- New repository for the C1 witness: one package whose upload will fail. -/
def c1WitnessNewRepo : Repository :=
  { name := "test-ubuntu",
    collections :=
      [{ target := { release_name := "focal", architectures := ["amd64"] },
         indexes := [],
         packages :=
           [{ name := "service-discover-agent", version := "0.1.0",
              architecture := "amd64", path := "pool/a.deb",
              hash := Hash.none, size := 0 }] }] }

theorem sync_apply_ordering_witness :
    Event.swap ∉ (sync_repo_apply syncEnvErr "http://fake-url/rc"
      c1WitnessNewRepo { name := "test-ubuntu", collections := [] }).1 :=
  (sync_apply_ordering syncEnvErr "http://fake-url/rc" c1WitnessNewRepo
    { name := "test-ubuntu", collections := [] }).2.2
    "upload failed for pool/a.deb" (by rfl)

/-! ## Claim C8 -/

/-- C8: when the computed `packages_copy` and `indexes_copy` lists are both empty,
the apply phase returns `Ok` immediately with an empty trace — no upload, no
invalidation, no delete, no swap — regardless of the delete lists. -/
theorem sync_apply_noop_when_no_copies (env : SyncEnv) (source_endpoint : String)
    (repo current_repo : Repository)
    (h1 : (repo_diff repo current_repo).1 = [])
    (h2 : (repo_diff repo current_repo).2.2.1 = []) :
    sync_repo_apply env source_endpoint repo current_repo = ([], Except.ok ()) := by
  rw [sync_repo_apply]
  simp only [h1, h2, List.isEmpty_nil, Bool.and_self, if_true]

/-- Destination/upstream environment for the C8 witness (everything succeeds; the
fetch side is never consulted). -/
def syncEnvW : SyncEnv :=
  { openLocal := fun _ => Except.error "unused",
    fetchUrl := fun _ => Except.error { code := 503, error := "unused" },
    uploadOk := fun _ => true,
    invalidateOk := true,
    deleteOk := fun _ => true,
    swapOk := true,
    sha1 := fun _ => [],
    sha256 := fun _ => [] }

/-- C8 witness, new repository: same target as the current one but no packages and
no indexes, so both copy lists are empty while both delete lists are not. -/
def c8NewRepo : Repository :=
  { name := "test-ubuntu",
    collections :=
      [{ target := { release_name := "focal", architectures := ["amd64"] },
         indexes := [], packages := [] }] }

/-- C8 witness, current repository: one package and one index under the same target. -/
def c8CurrentRepo : Repository :=
  { name := "test-ubuntu",
    collections :=
      [{ target := { release_name := "focal", architectures := ["amd64"] },
         indexes :=
           [{ file_path := "/data/R", path := "dists/focal/Release", size := 1868,
              hash := Hash.none, signature := Signature.none }],
         packages :=
           [{ name := "service-discover-agent", version := "0.1.0",
              architecture := "amd64",
              path := "pool/service-discover-agent_0.1.0_amd64.deb",
              hash := Hash.sha256 "9ed5", size := 20 }] }] }

theorem sync_apply_noop_when_no_copies_witness :
    (repo_diff c8NewRepo c8CurrentRepo).2.1 ≠ [] ∧
    (repo_diff c8NewRepo c8CurrentRepo).2.2.2 ≠ [] ∧
    sync_repo_apply syncEnvW "http://fake-url/rc" c8NewRepo c8CurrentRepo
      = ([], Except.ok ()) :=
  ⟨by decide, by decide,
    sync_apply_noop_when_no_copies syncEnvW "http://fake-url/rc" c8NewRepo c8CurrentRepo
      (by decide) (by decide)⟩

end RepoSync
